import Mathlib

/-!
# Verification of the Synapse workflow execution engine

A shallow embedding, in Lean 4, of the core of the Synapse backend
(`backend/app`): the DAG service (`services/dag.py`), the provider registry
(`providers/registry.py`), the orchestrator (`services/execution_engine.py`)
and the five provider streaming adapters (`providers/*.py`), together with
theorems about them.

Modelling conventions:
* Python dictionaries become association lists or `String → Option _`
  functions; Python sets of strings become duplicate-free lists.  Python set
  iteration order is unspecified; where the source iterates a set we fix the
  first-occurrence order of the underlying list (a determinization — all
  theorems below are insensitive to this choice or are stated about it).
* Timestamps (`datetime.now`) are abstracted to a `Bool` recording whether
  the field has been set; monotonic-clock latencies are abstracted to `0`.
* Exceptions become `Except` / explicit error values; the Python exception
  hierarchy of `core/exceptions.py` becomes the inductive `Exc`.
* Network and database effects are abstracted: `db.flush`/`commit` and redis
  `publish` are modelled as total (the event trace is accumulated in the
  state); the behaviour of a provider's HTTP stream is a parameter.
-/

namespace Synapse

/-! ## Canvas data model

`canvas_data` carries `nodes[].id`, `nodes[].type`, `nodes[].data` and
`edges[].source`, `edges[].target`.  An agent node's `data` holds the
optional fields `provider`, `model`, `temperature`, `maxTokens`,
`systemPrompt` (absent keys = `None`; `dict.get` defaults are applied at the
use sites, as in the source). -/

structure EdgeJ where
  source : String
  target : String
deriving DecidableEq, Repr

structure NodeData where
  provider : Option String
  model : Option String
  temperature : Option Rat
  maxTokens : Option Nat
  systemPrompt : Option String
deriving DecidableEq, Repr

def NodeData.empty : NodeData := ⟨none, none, none, none, none⟩

structure NodeJ where
  id : String
  type : String
  data : NodeData
deriving DecidableEq, Repr

/-- First-occurrence deduplication: the determinization we use for
`node_ids = {node["id"] for node in nodes}` (a Python set). -/
def dedupFirst : List String → List String
  | [] => []
  | x :: xs => x :: (dedupFirst xs).filter (fun y => y ≠ x)

theorem mem_dedupFirst {a : String} : ∀ {l : List String}, a ∈ dedupFirst l ↔ a ∈ l := by
  intro l
  induction l with
  | nil => simp [dedupFirst]
  | cons x xs ih =>
    simp only [dedupFirst, List.mem_cons, List.mem_filter, decide_eq_true_eq]
    constructor
    · rintro (rfl | ⟨h, _⟩)
      · exact Or.inl rfl
      · exact Or.inr (ih.mp h)
    · rintro (rfl | h)
      · exact Or.inl rfl
      · by_cases hx : a = x
        · exact Or.inl hx
        · exact Or.inr ⟨ih.mpr h, hx⟩

theorem nodup_dedupFirst : ∀ (l : List String), (dedupFirst l).Nodup := by
  intro l
  induction l with
  | nil => simp [dedupFirst]
  | cons x xs ih =>
    simp only [dedupFirst, List.nodup_cons]
    refine ⟨?_, List.Nodup.filter _ ih⟩
    intro hmem
    have hne := (List.mem_filter.mp hmem).2
    simp at hne

/-! ## DAG service (`services/dag.py`) -/

/-- The node-id set of the canvas: `node_ids = {node["id"] for node in nodes}`. -/
def nodeIdsOf (nodes : List NodeJ) : List String :=
  dedupFirst (nodes.map (·.id))

/-- The edges whose endpoints are both known node ids — exactly the edges the
`for edge in edges` loop of `topological_sort` acts on (it skips the rest). -/
def knownEdges (nodes : List NodeJ) (edges : List EdgeJ) : List EdgeJ :=
  edges.filter (fun e => decide (e.source ∈ nodeIdsOf nodes) && decide (e.target ∈ nodeIdsOf nodes))

/-- `adjacency[u]`: targets of the known edges out of `u`, in edge order
(the source appends `adjacency[source].append(target)` per qualifying edge). -/
def adjacencyOf (nodes : List NodeJ) (edges : List EdgeJ) : String → List String :=
  fun u => ((knownEdges nodes edges).filter (fun e => e.source == u)).map (·.target)

/-- `in_degree[v]` after the initialisation loop: `0` for every known node,
plus one per known edge into `v`. -/
def indegInit (nodes : List NodeJ) (edges : List EdgeJ) : String → Int :=
  fun v => (((knownEdges nodes edges).filter (fun e => e.target == v)).length : Int)

/-- The body of `for neighbor in adjacency[node_id]`: decrement each
neighbour's in-degree in turn, appending it to the work queue the moment its
in-degree reaches `0`. -/
def decrementAll : List String → (String → Int) → List String → (String → Int) × List String
  | [], indeg, queue => (indeg, queue)
  | v :: vs, indeg, queue =>
    let d := indeg v - 1
    decrementAll vs (fun x => if x = v then d else indeg x)
      (if d = 0 then queue ++ [v] else queue)

/-- The `while queue:` loop of Kahn's algorithm: pop the queue head, emit it,
and process its neighbours.  The loop is bounded by a fuel argument; with the
fuel `topological_sort` supplies the zero-fuel branch is unreachable
(`kahnLoop_spec` below proves the queue is empty when fuel runs out). -/
def kahnLoop (adj : String → List String) :
    Nat → List String → (String → Int) → List String → List String
  | _, [], _, order => order
  | 0, _ :: _, _, order => order
  | fuel + 1, u :: rest, indeg, order =>
    let p := decrementAll (adj u) indeg rest
    kahnLoop adj fuel p.2 p.1 (order ++ [u])

/-- Determinization of the Python message
`f"Workflow contains a cycle involving nodes: {cycle_nodes}"` (the set repr
is formatted here as a comma-separated list). -/
def cycleMessage (cycleNodes : List String) : String :=
  "Workflow contains a cycle involving nodes: " ++ String.intercalate ", " cycleNodes

/-- The `execution_order` list the `while` loop of `topological_sort` leaves
behind: the queue is seeded with all zero-in-degree known nodes. -/
def kahnResult (nodes : List NodeJ) (edges : List EdgeJ) : List String :=
  kahnLoop (adjacencyOf nodes edges) (nodeIdsOf nodes).length
    ((nodeIdsOf nodes).filter (fun v => indegInit nodes edges v == 0))
    (indegInit nodes edges) []

/-- `topological_sort(nodes, edges)` of `services/dag.py`.  Returns the
execution order, or — when fewer than `|node_ids|` nodes were emitted — the
unemitted node set `node_ids - processed` (the payload of the raised
`ValidationError`, formatted by `cycleMessage`). -/
def topological_sort (nodes : List NodeJ) (edges : List EdgeJ) :
    Except (List String) (List String) :=
  if (kahnResult nodes edges).length = (nodeIdsOf nodes).length then
    .ok (kahnResult nodes edges)
  else
    .error ((nodeIdsOf nodes).filter (fun v => decide (v ∉ kahnResult nodes edges)))

/-- `get_node_dependencies(node_id, edges)` of `services/dag.py`: sources of
all edges whose target is `node_id`, in edge order.  Note that it takes no
node list and performs no known-id check. -/
def get_node_dependencies (node_id : String) (edges : List EdgeJ) : List String :=
  (edges.filter (fun e => e.target == node_id)).map (·.source)

/-! ## Kahn loop invariant machinery -/

/-- Known in-edges of `v` whose source has not yet been emitted: the value
the source's `in_degree[v]` holds after the emitted prefix has been
processed. -/
def cntRemaining (nodes : List NodeJ) (edges : List EdgeJ)
    (emitted : List String) (v : String) : Nat :=
  ((knownEdges nodes edges).filter
    (fun e => e.target == v && decide (e.source ∉ emitted))).length

theorem knownEdges_mem {nodes : List NodeJ} {edges : List EdgeJ} {e : EdgeJ}
    (h : e ∈ knownEdges nodes edges) :
    e ∈ edges ∧ e.source ∈ nodeIdsOf nodes ∧ e.target ∈ nodeIdsOf nodes := by
  have h' := List.mem_filter.mp h
  refine ⟨h'.1, ?_, ?_⟩
  · have := h'.2
    simp only [Bool.and_eq_true, decide_eq_true_eq] at this
    exact this.1
  · have := h'.2
    simp only [Bool.and_eq_true, decide_eq_true_eq] at this
    exact this.2

theorem mem_knownEdges {nodes : List NodeJ} {edges : List EdgeJ} {e : EdgeJ}
    (h : e ∈ edges) (hs : e.source ∈ nodeIdsOf nodes) (ht : e.target ∈ nodeIdsOf nodes) :
    e ∈ knownEdges nodes edges := by
  refine List.mem_filter.mpr ⟨h, ?_⟩
  simp [hs, ht]

theorem length_filter_split (l : List EdgeJ) (p q : EdgeJ → Bool) :
    (l.filter p).length =
      (l.filter (fun e => p e && q e)).length + (l.filter (fun e => p e && !q e)).length := by
  induction l with
  | nil => simp
  | cons a t ih =>
    by_cases hp : p a <;> by_cases hq : q a <;>
      simp [List.filter_cons, hp, hq, ih] <;> omega

theorem count_adjacency (nodes : List NodeJ) (edges : List EdgeJ) (u v : String) :
    (adjacencyOf nodes edges u).count v =
      ((knownEdges nodes edges).filter (fun e => e.target == v && e.source == u)).length := by
  unfold adjacencyOf
  rw [List.count, List.countP_map, List.countP_filter, List.countP_eq_length_filter]
  rfl

theorem decrementAll_spec (A : List String) :
    ∀ (indeg : String → Int) (queue : List String),
    (∀ v, (A.count v : Int) ≤ indeg v) →
    ∃ enq : List String,
      (decrementAll A indeg queue).1 = (fun v => indeg v - A.count v) ∧
      (decrementAll A indeg queue).2 = queue ++ enq ∧
      enq.Nodup ∧
      (∀ v, v ∈ enq ↔ (0 < A.count v ∧ indeg v = A.count v)) := by
  induction A with
  | nil =>
    intro indeg queue _
    exact ⟨[], by funext v; simp [decrementAll], by simp [decrementAll], by simp, by simp⟩
  | cons a as ih =>
    intro indeg queue hge
    have hge' : ∀ v, (as.count v : Int) ≤ (fun x => if x = a then indeg a - 1 else indeg x) v := by
      intro v
      by_cases hv : v = a
      · subst hv
        have := hge v
        rw [List.count_cons_self] at this
        simp only [if_pos rfl]
        push_cast at this ⊢
        omega
      · have := hge v
        rw [List.count_cons_of_ne hv] at this
        simpa [hv] using this
    obtain ⟨enq1, h1, h2, h3, h4⟩ :=
      ih (fun x => if x = a then indeg a - 1 else indeg x)
        (if indeg a - 1 = 0 then queue ++ [a] else queue) hge'
    by_cases hd : indeg a - 1 = 0
    · -- the popped neighbour's in-degree hit zero: it was enqueued
      have hcnt0 : as.count a = 0 := by
        have := hge a
        rw [List.count_cons_self] at this
        push_cast at this
        omega
      refine ⟨a :: enq1, ?_, ?_, ?_, ?_⟩
      · rw [show decrementAll (a :: as) indeg queue
            = decrementAll as (fun x => if x = a then indeg a - 1 else indeg x)
                (if indeg a - 1 = 0 then queue ++ [a] else queue) from rfl, h1]
        funext v
        by_cases hv : v = a
        · subst hv
          simp only [if_pos rfl, List.count_cons_self, hcnt0]
          push_cast
          omega
        · simp [hv, List.count_cons_of_ne hv]
      · rw [show decrementAll (a :: as) indeg queue
            = decrementAll as (fun x => if x = a then indeg a - 1 else indeg x)
                (if indeg a - 1 = 0 then queue ++ [a] else queue) from rfl, h2, if_pos hd]
        simp
      · refine List.nodup_cons.mpr ⟨?_, h3⟩
        intro hmem
        have := (h4 a).mp hmem
        omega
      · intro v
        by_cases hv : v = a
        · subst hv
          constructor
          · intro _
            refine ⟨by simp, ?_⟩
            rw [List.count_cons_self, hcnt0]
            push_cast
            omega
          · intro _
            exact List.mem_cons_self _ _
        · rw [List.count_cons_of_ne hv]
          simp only [List.mem_cons, hv, false_or]
          rw [h4 v]
          simp [hv]
    · -- in-degree still positive (or the entry was never decremented to zero)
      refine ⟨enq1, ?_, ?_, h3, ?_⟩
      · rw [show decrementAll (a :: as) indeg queue
            = decrementAll as (fun x => if x = a then indeg a - 1 else indeg x)
                (if indeg a - 1 = 0 then queue ++ [a] else queue) from rfl, h1]
        funext v
        by_cases hv : v = a
        · subst hv; simp [List.count_cons_self]; omega
        · simp [hv, List.count_cons_of_ne hv]
      · rw [show decrementAll (a :: as) indeg queue
            = decrementAll as (fun x => if x = a then indeg a - 1 else indeg x)
                (if indeg a - 1 = 0 then queue ++ [a] else queue) from rfl, h2, if_neg hd]
      · intro v
        rw [h4 v]
        by_cases hv : v = a
        · subst hv
          rw [List.count_cons_self]
          simp only [if_pos rfl]
          constructor
          · rintro ⟨hpos, heq⟩
            constructor
            · omega
            · push_cast at heq ⊢; omega
          · rintro ⟨_, heq⟩
            push_cast at heq
            constructor
            · by_contra hz
              have hc0 : as.count v = 0 := by omega
              rw [hc0] at heq
              omega
            · push_cast; omega
        · rw [List.count_cons_of_ne hv]
          simp [hv]

theorem mem_adjacency {nodes : List NodeJ} {edges : List EdgeJ} {u v : String}
    (h : v ∈ adjacencyOf nodes edges u) : v ∈ nodeIdsOf nodes := by
  unfold adjacencyOf at h
  obtain ⟨e, he, rfl⟩ := List.mem_map.mp h
  exact (knownEdges_mem (List.mem_filter.mp he).1).2.2

/-- Splitting `cntRemaining` when the emitted prefix grows by the popped node
`u`: the remaining in-degree of `v` drops by the number of known edges
`u → v` — exactly the number of decrements `v` receives while `u`'s
adjacency list is processed. -/
theorem cntRemaining_append (nodes : List NodeJ) (edges : List EdgeJ)
    (order : List String) (u : String) (hu : u ∉ order) (v : String) :
    cntRemaining nodes edges order v =
      (adjacencyOf nodes edges u).count v + cntRemaining nodes edges (order ++ [u]) v := by
  unfold cntRemaining
  rw [count_adjacency,
    length_filter_split (knownEdges nodes edges)
      (fun e => e.target == v && decide (e.source ∉ order)) (fun e => e.source == u)]
  congr 1
  · apply congrArg
    apply List.filter_congr
    intro e _
    by_cases hs : e.source = u
    · simp [hs, hu]
    · have hb : (e.source == u) = false := beq_eq_false_iff_ne.mpr hs
      simp [hb]
  · apply congrArg
    apply List.filter_congr
    intro e _
    by_cases hs : e.source = u
    · simp [hs]
    · have hb : (e.source == u) = false := beq_eq_false_iff_ne.mpr hs
      by_cases hso : e.source ∈ order <;> simp [hb, hso, hs]

/-- The loop invariant of the `while queue:` loop in `topological_sort`. -/
structure KahnInv (nodes : List NodeJ) (edges : List EdgeJ)
    (queue : List String) (indeg : String → Int) (order : List String) : Prop where
  nodup : (order ++ queue).Nodup
  subset : ∀ x ∈ order ++ queue, x ∈ nodeIdsOf nodes
  deg : ∀ v ∈ nodeIdsOf nodes, indeg v = (cntRemaining nodes edges order v : Int)
  degOut : ∀ v, v ∉ nodeIdsOf nodes → indeg v = 0
  memIff : ∀ v ∈ nodeIdsOf nodes, (v ∈ order ++ queue ↔ indeg v = 0)
  edgeOrder : ∀ e ∈ knownEdges nodes edges, e.target ∈ order →
    e.source ∈ order ∧ order.indexOf e.source < order.indexOf e.target

/-- What holds of the emitted order when the loop has drained its queue. -/
def KahnPost (nodes : List NodeJ) (edges : List EdgeJ) (final : List String) : Prop :=
  final.Nodup ∧ (∀ x ∈ final, x ∈ nodeIdsOf nodes) ∧
  (∀ v ∈ nodeIdsOf nodes, (v ∈ final ↔ cntRemaining nodes edges final v = 0)) ∧
  (∀ e ∈ knownEdges nodes edges, e.target ∈ final →
    e.source ∈ final ∧ final.indexOf e.source < final.indexOf e.target)

theorem kahnInv_final {nodes : List NodeJ} {edges : List EdgeJ}
    {indeg : String → Int} {order : List String}
    (inv : KahnInv nodes edges [] indeg order) : KahnPost nodes edges order := by
  refine ⟨by simpa using inv.nodup, fun x hx => inv.subset x (by simpa using hx), ?_, ?_⟩
  · intro v hv
    have h1 := inv.memIff v hv
    have h2 := inv.deg v hv
    simp only [List.append_nil] at h1
    rw [h1, h2]
    exact_mod_cast Int.natCast_eq_zero
  · exact inv.edgeOrder

theorem kahnLoop_spec (nodes : List NodeJ) (edges : List EdgeJ) :
    ∀ (fuel : Nat) (queue : List String) (indeg : String → Int) (order : List String),
      KahnInv nodes edges queue indeg order →
      fuel + order.length = (nodeIdsOf nodes).length →
      KahnPost nodes edges (kahnLoop (adjacencyOf nodes edges) fuel queue indeg order) := by
  intro fuel
  induction fuel with
  | zero =>
    intro queue indeg order inv hfuel
    match queue with
    | [] => exact kahnInv_final inv
    | u :: rest =>
      exfalso
      have hsub : List.Subperm (order ++ u :: rest) (nodeIdsOf nodes) :=
        List.subperm_of_subset inv.nodup inv.subset
      have := hsub.length_le
      simp only [List.length_append, List.length_cons] at this
      omega
  | succ n ih =>
    intro queue indeg order inv hfuel
    match queue with
    | [] => exact kahnInv_final inv
    | u :: rest =>
      have huq : u ∈ order ++ u :: rest := by simp
      have hu_ids : u ∈ nodeIdsOf nodes := inv.subset u huq
      have hu_norder : u ∉ order := by
        intro h
        have hn := inv.nodup
        rw [List.nodup_append] at hn
        exact hn.2.2 h (List.mem_cons_self u rest)
      have hindeg_u : indeg u = 0 := (inv.memIff u hu_ids).mp huq
      have hcnt_u : cntRemaining nodes edges order u = 0 := by
        have h := inv.deg u hu_ids
        rw [hindeg_u] at h
        exact_mod_cast h.symm
      -- every known in-edge of the popped node comes from the emitted prefix
      have hsrc_order : ∀ e ∈ knownEdges nodes edges, e.target = u → e.source ∈ order := by
        intro e he htgt
        by_contra hns
        have hmem : e ∈ (knownEdges nodes edges).filter
            (fun e => e.target == u && decide (e.source ∉ order)) :=
          List.mem_filter.mpr ⟨he, by simp [htgt, hns]⟩
        have hpos : 0 < cntRemaining nodes edges order u :=
          List.length_pos.mpr (List.ne_nil_of_mem hmem)
        omega
      -- the in-degree function dominates the decrement multiset
      have hge : ∀ v, ((adjacencyOf nodes edges u).count v : Int) ≤ indeg v := by
        intro v
        by_cases hv : v ∈ nodeIdsOf nodes
        · rw [inv.deg v hv]
          have hle : (adjacencyOf nodes edges u).count v ≤ cntRemaining nodes edges order v := by
            rw [count_adjacency]
            unfold cntRemaining
            rw [← List.countP_eq_length_filter, ← List.countP_eq_length_filter]
            apply List.countP_mono_left
            intro e _ hpe
            simp only [Bool.and_eq_true, beq_iff_eq] at hpe
            simp [hpe.1, hpe.2, hu_norder]
          exact_mod_cast hle
        · have hz : (adjacencyOf nodes edges u).count v = 0 :=
            List.count_eq_zero.mpr (fun hmem => hv (mem_adjacency hmem))
          rw [hz, inv.degOut v hv]
          simp
      obtain ⟨enq, hA1, hA2, hA3, hA4⟩ := decrementAll_spec (adjacencyOf nodes edges u) indeg rest hge
      have henq_mem : ∀ v ∈ enq, v ∈ nodeIdsOf nodes ∧ v ∉ order ++ u :: rest := by
        intro v hv
        obtain ⟨hpos, heq⟩ := (hA4 v).mp hv
        have hvids : v ∈ nodeIdsOf nodes :=
          mem_adjacency (List.count_pos_iff.mp hpos)
        refine ⟨hvids, ?_⟩
        intro hvin
        have h0 : indeg v = 0 := (inv.memIff v hvids).mp hvin
        rw [h0] at heq
        omega
      -- the new invariant after emitting u
      have inv' : KahnInv nodes edges (rest ++ enq)
          (fun v => indeg v - (adjacencyOf nodes edges u).count v) (order ++ [u]) := by
        refine ⟨?_, ?_, ?_, ?_, ?_, ?_⟩
        · have heq : ((order ++ [u]) ++ (rest ++ enq)) = (order ++ u :: rest) ++ enq := by
            simp
          rw [heq, List.nodup_append]
          exact ⟨inv.nodup, hA3, fun a ha ha2 => (henq_mem a ha2).2 ha⟩
        · intro x hx
          simp only [List.append_assoc, List.mem_append, List.mem_singleton] at hx
          rcases hx with hx | hx | hx | hx
          · exact inv.subset x (List.mem_append_left _ hx)
          · subst hx; exact hu_ids
          · exact inv.subset x (by simp [hx])
          · exact (henq_mem x hx).1
        · intro v hv
          have hsplit := cntRemaining_append nodes edges order u hu_norder v
          have hd := inv.deg v hv
          rw [hd]
          push_cast [hsplit]
          ring
        · intro v hv
          have hz : (adjacencyOf nodes edges u).count v = 0 :=
            List.count_eq_zero.mpr (fun hmem => hv (mem_adjacency hmem))
          simp only [hz, Nat.cast_zero, inv.degOut v hv]
          ring
        · intro v hv
          constructor
          · intro hvin
            simp only [List.append_assoc, List.mem_append, List.mem_singleton] at hvin
            rcases hvin with hvin | hvin | hvin | hvin
            · have h0 : indeg v = 0 := (inv.memIff v hv).mp (List.mem_append_left _ hvin)
              have := hge v
              rw [h0] at this ⊢
              have hz : (adjacencyOf nodes edges u).count v = 0 := by omega
              rw [hz]; simp
            · have h0 : indeg v = 0 := by rw [hvin]; exact hindeg_u
              have := hge v
              rw [h0] at this ⊢
              have hz : (adjacencyOf nodes edges u).count v = 0 := by omega
              rw [hz]; simp
            · have h0 : indeg v = 0 := (inv.memIff v hv).mp (by simp [hvin])
              have := hge v
              rw [h0] at this ⊢
              have hz : (adjacencyOf nodes edges u).count v = 0 := by omega
              rw [hz]; simp
            · have heq := ((hA4 v).mp hvin).2
              rw [heq]; ring
          · intro h0
            by_cases hz : (adjacencyOf nodes edges u).count v = 0
            · rw [hz] at h0
              simp at h0
              have hvin := (inv.memIff v hv).mpr h0
              simp only [List.mem_append, List.mem_cons] at hvin
              simp only [List.append_assoc, List.mem_append, List.mem_singleton]
              tauto
            · have hpos : 0 < (adjacencyOf nodes edges u).count v := Nat.pos_of_ne_zero hz
              have heq : indeg v = ((adjacencyOf nodes edges u).count v : Int) := by omega
              have hvin : v ∈ enq := (hA4 v).mpr ⟨hpos, heq⟩
              simp [hvin]
        · intro e he htin
          rcases List.mem_append.mp htin with ht | ht
          · obtain ⟨hs, hidx⟩ := inv.edgeOrder e he ht
            refine ⟨List.mem_append_left _ hs, ?_⟩
            rw [List.indexOf_append_of_mem hs, List.indexOf_append_of_mem ht]
            exact hidx
          · have ht' : e.target = u := by simpa using ht
            have hs := hsrc_order e he ht'
            refine ⟨List.mem_append_left _ hs, ?_⟩
            rw [List.indexOf_append_of_mem hs, ht',
              List.indexOf_append_of_not_mem hu_norder]
            have hlt : order.indexOf e.source < order.length :=
              List.indexOf_lt_length.mpr hs
            simp only [List.indexOf_cons_self]
            omega
      have hfuel' : n + (order ++ [u]).length = (nodeIdsOf nodes).length := by
        simp only [List.length_append, List.length_singleton]
        omega
      have hstep := ih (rest ++ enq)
        (fun v => indeg v - (adjacencyOf nodes edges u).count v) (order ++ [u]) inv' hfuel'
      show KahnPost nodes edges
        (kahnLoop (adjacencyOf nodes edges) n
          (decrementAll (adjacencyOf nodes edges u) indeg rest).2
          (decrementAll (adjacencyOf nodes edges u) indeg rest).1 (order ++ [u]))
      rw [hA1, hA2]
      exact hstep

theorem kahnInv_init (nodes : List NodeJ) (edges : List EdgeJ) :
    KahnInv nodes edges
      ((nodeIdsOf nodes).filter (fun v => indegInit nodes edges v == 0))
      (indegInit nodes edges) [] := by
  refine ⟨?_, ?_, ?_, ?_, ?_, ?_⟩
  · simpa using List.Nodup.filter _ (nodup_dedupFirst _)
  · intro x hx
    simp only [List.nil_append] at hx
    exact (List.mem_filter.mp hx).1
  · intro v _
    unfold indegInit cntRemaining
    congr 2
    apply List.filter_congr
    intro e _
    simp
  · intro v hv
    unfold indegInit
    have hnil : (knownEdges nodes edges).filter (fun e => e.target == v) = [] := by
      rw [List.filter_eq_nil_iff]
      intro e he
      simp only [beq_iff_eq]
      intro ht
      exact hv (ht ▸ (knownEdges_mem he).2.2)
    rw [hnil]
    simp
  · intro v hv
    simp only [List.nil_append, List.mem_filter]
    constructor
    · rintro ⟨_, h⟩
      simpa using h
    · intro h
      exact ⟨hv, by simpa using h⟩
  · intro e _ ht
    simp at ht

/-! ## Cycles -/

/-- One-step reachability along the edges `topological_sort` considers. -/
def EdgeRel (nodes : List NodeJ) (edges : List EdgeJ) (u v : String) : Prop :=
  ∃ e ∈ knownEdges nodes edges, e.source = u ∧ e.target = v

/-- A closed directed walk along known edges: a chain starting at `v` whose
last vertex is `v` again.  Such a walk exists exactly when the graph has a
directed cycle among known node ids. -/
def HasCycle (nodes : List NodeJ) (edges : List EdgeJ) : Prop :=
  ∃ v p, List.Chain (EdgeRel nodes edges) v p ∧ p.getLast? = some v

/-- Pigeonhole: in a finite vertex set in which every vertex has an
in-neighbour inside the set, some vertex lies on a closed walk within the
set. -/
theorem cycle_of_all_have_pred (R : String → String → Prop) (L : List String)
    (hne : L ≠ []) (hpred : ∀ v ∈ L, ∃ u ∈ L, R u v) :
    ∃ v p, List.Chain R v p ∧ p.getLast? = some v ∧ v ∈ L ∧ ∀ x ∈ p, x ∈ L := by
  classical
  choose f hfmem hfR using hpred
  obtain ⟨v0, hv0⟩ := List.exists_mem_of_ne_nil L hne
  set g : ℕ → {x // x ∈ L} := fun n =>
    Nat.rec ⟨v0, hv0⟩ (fun _ prev => ⟨f prev.1 prev.2, hfmem prev.1 prev.2⟩) n with hg
  have hstep : ∀ n, R (g (n + 1)).1 (g n).1 := fun n => hfR (g n).1 (g n).2
  -- descending walks from g (s+d) back down to g s
  have hwalk : ∀ d s, ∃ p : List String,
      List.Chain R (g (s + d)).1 p ∧ p.length = d ∧
      (∀ x ∈ p, x ∈ L) ∧ (d ≠ 0 → p.getLast? = some (g s).1) := by
    intro d
    induction d with
    | zero =>
      intro s
      exact ⟨[], List.Chain.nil, rfl, by simp, by simp⟩
    | succ d ihd =>
      intro s
      obtain ⟨p, hch, hlen, hmem, hlast⟩ := ihd s
      refine ⟨(g (s + d)).1 :: p, ?_, by simp [hlen], ?_, ?_⟩
      · have hsd : s + (d + 1) = (s + d) + 1 := by omega
        rw [hsd]
        exact List.Chain.cons (hstep (s + d)) hch
      · intro x hx
        rcases List.mem_cons.mp hx with rfl | hx
        · exact (g (s + d)).2
        · exact hmem x hx
      · intro _
        by_cases hd : d = 0
        · subst hd
          have hp : p = [] := List.length_eq_zero.mp hlen
          subst hp
          simp
        · have hp : p ≠ [] := by
            intro h
            rw [h] at hlen
            exact hd hlen.symm
          obtain ⟨y, ys, rfl⟩ := List.exists_cons_of_ne_nil hp
          rw [List.getLast?_cons_cons]
          exact hlast hd
  -- pigeonhole: the walk g 0, g 1, … revisits a vertex
  have hpig : ∃ i j : ℕ, i < j ∧ (g i).1 = (g j).1 := by
    have hcard : (L.toFinset).card < (Finset.univ : Finset (Fin (L.length + 1))).card := by
      rw [Finset.card_univ, Fintype.card_fin]
      exact Nat.lt_succ_of_le L.toFinset_card_le
    obtain ⟨a, _, b, _, hab, heq⟩ :=
      Finset.exists_ne_map_eq_of_card_lt_of_maps_to hcard
        (f := fun k : Fin (L.length + 1) => (g k.1).1)
        (fun k _ => List.mem_toFinset.mpr (g k.1).2)
    rcases lt_or_gt_of_ne (fun h : a.1 = b.1 => hab (Fin.ext h)) with h | h
    · exact ⟨a.1, b.1, h, heq⟩
    · exact ⟨b.1, a.1, h, heq.symm⟩
  obtain ⟨i, j, hij, hgij⟩ := hpig
  obtain ⟨p, hch, hlen, hmem, hlast⟩ := hwalk (j - i) i
  have hji : i + (j - i) = j := by omega
  rw [hji] at hch
  refine ⟨(g j).1, p, hch, ?_, (g j).2, hmem⟩
  rw [hlast (by omega)]
  exact congrArg some hgij

theorem kahnResult_post (nodes : List NodeJ) (edges : List EdgeJ) :
    KahnPost nodes edges (kahnResult nodes edges) :=
  kahnLoop_spec nodes edges _ _ _ _ (kahnInv_init nodes edges) (by simp)

/-- When the loop drains with known nodes left over, every leftover node has
a known in-edge whose source is also left over. -/
theorem leftover_pred (nodes : List NodeJ) (edges : List EdgeJ) (F : List String)
    (hiff : ∀ v ∈ nodeIdsOf nodes, (v ∈ F ↔ cntRemaining nodes edges F v = 0)) :
    ∀ v ∈ (nodeIdsOf nodes).filter (fun x => decide (x ∉ F)),
      ∃ u ∈ (nodeIdsOf nodes).filter (fun x => decide (x ∉ F)), EdgeRel nodes edges u v := by
  intro v hv
  obtain ⟨hvids, hvnf⟩ := List.mem_filter.mp hv
  have hvnf2 : v ∉ F := by simpa using hvnf
  have hcnt : cntRemaining nodes edges F v ≠ 0 := fun h => hvnf2 ((hiff v hvids).mpr h)
  have hne : ((knownEdges nodes edges).filter
      (fun e => e.target == v && decide (e.source ∉ F))) ≠ [] := by
    intro h
    apply hcnt
    unfold cntRemaining
    rw [h]
    rfl
  obtain ⟨e, he⟩ := List.exists_mem_of_ne_nil _ hne
  obtain ⟨heE, hprop⟩ := List.mem_filter.mp he
  simp only [Bool.and_eq_true, beq_iff_eq, decide_eq_true_eq] at hprop
  exact ⟨e.source, List.mem_filter.mpr ⟨(knownEdges_mem heE).2.1, by simpa using hprop.2⟩,
    e, heE, rfl, hprop.1⟩

/-- Along a chain of known edges whose targets are all emitted, the emitted
index strictly increases. -/
theorem chain_indexOf_lt (nodes : List NodeJ) (edges : List EdgeJ) (F : List String)
    (hedge : ∀ e ∈ knownEdges nodes edges, e.target ∈ F →
      e.source ∈ F ∧ F.indexOf e.source < F.indexOf e.target)
    (hall : ∀ v ∈ nodeIdsOf nodes, v ∈ F) :
    ∀ (p : List String) (v w : String), List.Chain (EdgeRel nodes edges) v p →
      p.getLast? = some w → F.indexOf v < F.indexOf w := by
  intro p
  induction p with
  | nil =>
    intro v w _ hl
    simp at hl
  | cons x rest ih =>
    intro v w hch hl
    rw [List.chain_cons] at hch
    obtain ⟨⟨e, he, hsrc, htgt⟩, hch2⟩ := hch
    have hxF : x ∈ F := hall x (htgt ▸ (knownEdges_mem he).2.2)
    have h1 : F.indexOf v < F.indexOf x := by
      have h := hedge e he (by rw [htgt]; exact hxF)
      rw [hsrc, htgt] at h
      exact h.2
    cases rest with
    | nil =>
      have hw : x = w := by simpa using hl
      exact hw ▸ h1
    | cons y ys =>
      rw [List.getLast?_cons_cons] at hl
      exact lt_trans h1 (ih x w hch2 hl)

/-- **C2.** For every input whose graph is acyclic (no closed directed walk
along edges between known node ids), `topological_sort` succeeds and returns
a permutation of the node-id set in which, for every edge whose source and
target are both known node ids, the source appears at a strictly smaller
index than the target. -/
theorem c2_topological_sort_acyclic_correct (nodes : List NodeJ) (edges : List EdgeJ)
    (hacyc : ¬ HasCycle nodes edges) :
    ∃ order, topological_sort nodes edges = .ok order ∧
      order.Perm (nodeIdsOf nodes) ∧
      ∀ e ∈ edges, e.source ∈ nodeIdsOf nodes → e.target ∈ nodeIdsOf nodes →
        order.indexOf e.source < order.indexOf e.target := by
  obtain ⟨hnodup, hsub, hiff, hedge⟩ := kahnResult_post nodes edges
  have hall : ∀ v ∈ nodeIdsOf nodes, v ∈ kahnResult nodes edges := by
    by_contra hnot
    push_neg at hnot
    obtain ⟨w, hw, hwn⟩ := hnot
    have hLne : (nodeIdsOf nodes).filter (fun x => decide (x ∉ kahnResult nodes edges)) ≠ [] :=
      List.ne_nil_of_mem (List.mem_filter.mpr ⟨hw, by simpa using hwn⟩)
    obtain ⟨v, p, hchain, hlast, _, _⟩ :=
      cycle_of_all_have_pred _ _ hLne (leftover_pred nodes edges _ hiff)
    exact hacyc ⟨v, p, hchain, hlast⟩
  have hlen : (kahnResult nodes edges).length = (nodeIdsOf nodes).length := by
    have hidnodup : (nodeIdsOf nodes).Nodup := nodup_dedupFirst _
    have h1 := (List.subperm_of_subset hnodup hsub).length_le
    have h2 := (List.subperm_of_subset hidnodup hall).length_le
    omega
  have hperm : (kahnResult nodes edges).Perm (nodeIdsOf nodes) :=
    (List.subperm_of_subset hnodup hsub).perm_of_length_le (le_of_eq hlen.symm)
  refine ⟨kahnResult nodes edges, ?_, hperm, ?_⟩
  · unfold topological_sort
    rw [if_pos hlen]
  · intro e he hs ht
    exact (hedge e (mem_knownEdges he hs ht) (hall _ ht)).2

/-- **C3.** For every input whose graph has a cycle among known node ids,
`topological_sort` fails, and the reported node set — computed in the source
as `node_ids - processed`, i.e. exactly the unemitted known nodes — is
non-empty, consists of known node ids, and contains a closed directed walk
(hence is a superset of a cycle). -/
theorem c3_topological_sort_cycle_detect (nodes : List NodeJ) (edges : List EdgeJ)
    (hcyc : HasCycle nodes edges) :
    ∃ S, topological_sort nodes edges = .error S ∧ S ≠ [] ∧
      (∀ x ∈ S, x ∈ nodeIdsOf nodes) ∧
      ∃ v p, List.Chain (EdgeRel nodes edges) v p ∧ p.getLast? = some v ∧
        v ∈ S ∧ ∀ x ∈ p, x ∈ S := by
  obtain ⟨hnodup, hsub, hiff, hedge⟩ := kahnResult_post nodes edges
  have hnall : ¬ ∀ v ∈ nodeIdsOf nodes, v ∈ kahnResult nodes edges := by
    intro hall
    obtain ⟨v, p, hchain, hlast⟩ := hcyc
    exact absurd (chain_indexOf_lt nodes edges _ hedge hall p v v hchain hlast)
      (lt_irrefl _)
  have hlenne : (kahnResult nodes edges).length ≠ (nodeIdsOf nodes).length := by
    intro hlen
    apply hnall
    intro v hv
    exact ((List.subperm_of_subset hnodup hsub).perm_of_length_le
      (le_of_eq hlen.symm)).mem_iff.mpr hv
  push_neg at hnall
  obtain ⟨w, hw, hwn⟩ := hnall
  have hwS : w ∈ (nodeIdsOf nodes).filter (fun x => decide (x ∉ kahnResult nodes edges)) :=
    List.mem_filter.mpr ⟨hw, by simpa using hwn⟩
  refine ⟨(nodeIdsOf nodes).filter (fun x => decide (x ∉ kahnResult nodes edges)), ?_,
    List.ne_nil_of_mem hwS, fun x hx => (List.mem_filter.mp hx).1, ?_⟩
  · unfold topological_sort
    rw [if_neg hlenne]
  · exact cycle_of_all_have_pred _ _ (List.ne_nil_of_mem hwS)
      (leftover_pred nodes edges _ hiff)

/-- **C2 witness**: a concrete acyclic two-node graph `a → b`. -/
theorem c2_witness :
    (¬ HasCycle [⟨"a", "agent", NodeData.empty⟩, ⟨"b", "agent", NodeData.empty⟩]
        [⟨"a", "b"⟩]) ∧
    (∃ order, topological_sort
        [⟨"a", "agent", NodeData.empty⟩, ⟨"b", "agent", NodeData.empty⟩]
        [⟨"a", "b"⟩] = .ok order ∧
      order.Perm (nodeIdsOf [⟨"a", "agent", NodeData.empty⟩, ⟨"b", "agent", NodeData.empty⟩]) ∧
      ∀ e ∈ [(⟨"a", "b"⟩ : EdgeJ)],
        e.source ∈ nodeIdsOf [⟨"a", "agent", NodeData.empty⟩, ⟨"b", "agent", NodeData.empty⟩] →
        e.target ∈ nodeIdsOf [⟨"a", "agent", NodeData.empty⟩, ⟨"b", "agent", NodeData.empty⟩] →
        order.indexOf e.source < order.indexOf e.target) := by
  have hacyc : ¬ HasCycle [⟨"a", "agent", NodeData.empty⟩, ⟨"b", "agent", NodeData.empty⟩]
      [⟨"a", "b"⟩] := by
    rintro ⟨v, p, hch, hl⟩
    have hrel : ∀ u w : String,
        EdgeRel [⟨"a", "agent", NodeData.empty⟩, ⟨"b", "agent", NodeData.empty⟩]
          [⟨"a", "b"⟩] u w → u = "a" ∧ w = "b" := by
      rintro u w ⟨e, he, hsrc, htgt⟩
      have he2 : e = ⟨"a", "b"⟩ := by
        have := (List.mem_filter.mp he).1
        simpa using this
      subst he2
      exact ⟨hsrc.symm, htgt.symm⟩
    cases p with
    | nil => simp at hl
    | cons x rest =>
      rw [List.chain_cons] at hch
      obtain ⟨hvx, hch2⟩ := hch
      obtain ⟨hva, hxb⟩ := hrel v x hvx
      cases rest with
      | nil =>
        have hxv : x = v := by simpa using hl
        rw [hva, hxb] at hxv
        simp at hxv
      | cons y ys =>
        rw [List.chain_cons] at hch2
        obtain ⟨hby, _⟩ := hch2
        have := (hrel x y hby).1
        rw [hxb] at this
        simp at this
  exact ⟨hacyc, c2_topological_sort_acyclic_correct _ _ hacyc⟩

/-- **C3 witness**: a concrete two-node cycle `a → b → a`. -/
theorem c3_witness :
    HasCycle [⟨"a", "agent", NodeData.empty⟩, ⟨"b", "agent", NodeData.empty⟩]
      [⟨"a", "b"⟩, ⟨"b", "a"⟩] ∧
    ∃ S, topological_sort [⟨"a", "agent", NodeData.empty⟩, ⟨"b", "agent", NodeData.empty⟩]
        [⟨"a", "b"⟩, ⟨"b", "a"⟩] = .error S ∧ S ≠ [] ∧
      (∀ x ∈ S, x ∈ nodeIdsOf [⟨"a", "agent", NodeData.empty⟩, ⟨"b", "agent", NodeData.empty⟩]) ∧
      ∃ v p, List.Chain
          (EdgeRel [⟨"a", "agent", NodeData.empty⟩, ⟨"b", "agent", NodeData.empty⟩]
            [⟨"a", "b"⟩, ⟨"b", "a"⟩]) v p ∧
        p.getLast? = some v ∧ v ∈ S ∧ ∀ x ∈ p, x ∈ S := by
  have hcyc : HasCycle [⟨"a", "agent", NodeData.empty⟩, ⟨"b", "agent", NodeData.empty⟩]
      [⟨"a", "b"⟩, ⟨"b", "a"⟩] := by
    refine ⟨"a", ["b", "a"], ?_, rfl⟩
    refine List.Chain.cons ⟨⟨"a", "b"⟩, by decide, rfl, rfl⟩ ?_
    exact List.Chain.cons ⟨⟨"b", "a"⟩, by decide, rfl, rfl⟩ List.Chain.nil
  exact ⟨hcyc, c3_topological_sort_cycle_detect _ _ hcyc⟩

/-- `knownEdges` is idempotent: filtering the already-filtered edge list
changes nothing. -/
theorem knownEdges_idem (nodes : List NodeJ) (edges : List EdgeJ) :
    knownEdges nodes (knownEdges nodes edges) = knownEdges nodes edges := by
  unfold knownEdges
  rw [List.filter_filter]
  apply List.filter_congr
  intro e _
  cases h1 : decide (e.source ∈ nodeIdsOf nodes) <;>
    cases h2 : decide (e.target ∈ nodeIdsOf nodes) <;> simp [h1, h2]

/-- **C8 (amended).** `topological_sort` ignores edges whose source or target
is not a known node id: its result on the full edge list equals its result
on the list with those edges removed.  `get_node_dependencies`, however,
filters only on `edge["target"] == node_id` and performs no known-id check:
it returns the source of every matching edge, known or not (see the
counterexample). -/
theorem c8_unknown_edge_handling :
    (∀ (nodes : List NodeJ) (edges : List EdgeJ),
      topological_sort nodes (knownEdges nodes edges) = topological_sort nodes edges) ∧
    (∀ (node_id : String) (edges : List EdgeJ),
      get_node_dependencies node_id edges
        = (edges.filter (fun e => e.target == node_id)).map (·.source)) := by
  constructor
  · intro nodes edges
    have hadj : adjacencyOf nodes (knownEdges nodes edges) = adjacencyOf nodes edges := by
      funext u
      unfold adjacencyOf
      rw [knownEdges_idem]
    have hindeg : indegInit nodes (knownEdges nodes edges) = indegInit nodes edges := by
      funext v
      unfold indegInit
      rw [knownEdges_idem]
    unfold topological_sort kahnResult
    rw [hadj, hindeg]
  · intro node_id edges
    rfl

/-- **C8 counterexample**: with a single node `b` and a single stale edge
`ghost → b` whose source is unknown, `get_node_dependencies` returns
`["ghost"]`, whereas on the edge list with unknown-endpoint edges removed it
returns `[]` — the claimed equality fails for `parents_of`. -/
theorem c8_counterexample :
    get_node_dependencies "b" [⟨"ghost", "b"⟩] = ["ghost"] ∧
    knownEdges [⟨"b", "agent", NodeData.empty⟩] [⟨"ghost", "b"⟩] = [] ∧
    get_node_dependencies "b"
        (knownEdges [⟨"b", "agent", NodeData.empty⟩] [⟨"ghost", "b"⟩]) = [] ∧
    get_node_dependencies "b" [⟨"ghost", "b"⟩] ≠
      get_node_dependencies "b"
        (knownEdges [⟨"b", "agent", NodeData.empty⟩] [⟨"ghost", "b"⟩]) := by
  refine ⟨rfl, by decide, by decide, by decide⟩

/-! ## Exceptions (`core/exceptions.py`) -/

/-- The exception values the engine can see.  `providerAuth` and
`providerRateLimit` are the `ProviderError` subclasses; `pyError` stands for
any non-Synapse Python exception (`KeyError`, `TypeError`, …). -/
inductive Exc where
  | providerAuth (provider : String)
  | providerRateLimit (provider : String)
  | providerError (provider : String) (message : String)
  | executionError (message : String) (agent_id : Option String)
  | validationError (message : String)
  | pyError (message : String)
deriving DecidableEq, Repr

/-- `isinstance(exc, ProviderError)`: auth and rate-limit errors are
subclasses of `ProviderError`; `ExecutionError` and `ValidationError`
are not. -/
def Exc.isProviderError : Exc → Bool
  | .providerAuth _ => true
  | .providerRateLimit _ => true
  | .providerError _ _ => true
  | _ => false

/-- `str(exc)`: `SynapseError.__init__` forwards the composed message to
`Exception.__init__`, so `str` returns it. -/
def Exc.str : Exc → String
  | .providerAuth p => "Provider '" ++ p ++ "' error: Invalid or missing API key"
  | .providerRateLimit p => "Provider '" ++ p ++ "' error: Rate limit exceeded"
  | .providerError p m => "Provider '" ++ p ++ "' error: " ++ m
  | .executionError m _ => m
  | .validationError m => m
  | .pyError m => m

/-! ## Provider registry (`providers/registry.py`) -/

/-- The keys of `PROVIDER_MAP`, in insertion order. -/
def providerMapKeys : List String := ["openai", "anthropic", "gemini", "groq", "openrouter"]

/-- The Python repr of `list(PROVIDER_MAP.keys())` interpolated into the
unsupported-provider message. -/
def providerListRepr : String :=
  "['openai', 'anthropic', 'gemini', 'groq', 'openrouter']"

/-- `get_provider(provider_type, api_key)` of `providers/registry.py`.  The
adapter instance is abstracted to the provider name whose constructor was
called.  `if not api_key` is string truthiness: the empty string is the
missing key. -/
def get_provider (provider_type : String) (api_key : String) : Except Exc String :=
  if api_key = "" then .error (.providerAuth provider_type)
  else if provider_type ∈ providerMapKeys then .ok provider_type
  else .error (.providerError provider_type
    ("Unsupported provider: '" ++ provider_type ++ "'. Available: " ++ providerListRepr))

/-- **C9.** `get_provider`: an empty key fails with `ProviderAuthError`
naming the requested provider (the empty-key check precedes the name check);
a non-empty key with an unsupported name fails with a `ProviderError` whose
message names the supported set; otherwise an adapter for that provider is
returned. -/
theorem c9_get_provider_spec (name key : String) :
    (key = "" → get_provider name key = .error (.providerAuth name)) ∧
    (key ≠ "" → name ∉ providerMapKeys →
      get_provider name key = .error (.providerError name
        ("Unsupported provider: '" ++ name ++ "'. Available: " ++ providerListRepr))) ∧
    (key ≠ "" → name ∈ providerMapKeys → get_provider name key = .ok name) := by
  refine ⟨?_, ?_, ?_⟩
  · intro h
    unfold get_provider
    rw [if_pos h]
  · intro hk hn
    unfold get_provider
    rw [if_neg hk, if_neg hn]
  · intro hk hn
    unfold get_provider
    rw [if_neg hk, if_pos hn]

/-- **C9 witness**: the three cases of `get_provider` at concrete inputs. -/
theorem c9_witness :
    get_provider "openai" "" = .error (.providerAuth "openai") ∧
    get_provider "mistral" "sk-x" = .error (.providerError "mistral"
      ("Unsupported provider: 'mistral'. Available: " ++ providerListRepr)) ∧
    get_provider "anthropic" "sk-ant-x" = .ok "anthropic" :=
  ⟨(c9_get_provider_spec "openai" "").1 rfl,
   (c9_get_provider_spec "mistral" "sk-x").2.1 (by decide) (by decide),
   (c9_get_provider_spec "anthropic" "sk-ant-x").2.2 (by decide) (by decide)⟩

/-! ## Provider value types (`providers/base.py`, engine-level view) -/

structure LLMMessage where
  role : String
  content : String
deriving DecidableEq, Repr

structure LLMConfig where
  model : String
  temperature : Rat
  max_tokens : Nat
deriving DecidableEq, Repr

structure LLMChunk where
  content : String
  is_final : Bool
  tokens_used : Nat
deriving DecidableEq, Repr

/-! ## Execution engine (`services/execution_engine.py`) -/

inductive ExecStatus where
  | pending
  | running
  | completed
  | failed
  | cancelled
deriving DecidableEq, Repr

inductive AgentStatus where
  | idle
  | waiting
  | running
  | completed
  | failed
  | skipped
deriving DecidableEq, Repr

/-- The events published on the run's channel `execution:<id>`; the constant
`execution_id` and publish-time `timestamp` stamps are omitted. -/
inductive Event where
  | workflow_status (status : String)
  | agent_status (agent_id : String) (status : String)
  | agent_output_chunk (agent_id : String) (chunk : String)
  | agent_completed (agent_id : String) (output : String) (tokens_used : Nat) (latency_ms : Nat)
  | error (agent_id : Option String) (message : String) (code : String)
  | workflow_completed (status : String) (total_tokens : Option Nat)
deriving DecidableEq, Repr

/-- The fields of `WorkflowExecution` the engine touches; timestamps are
abstracted to whether they have been set. -/
structure ExecRecord where
  status : ExecStatus
  started_at : Bool
  completed_at : Bool
  error : Option String
deriving DecidableEq, Repr

/-- The fields of `AgentExecution` the engine touches; `input_data` holds
`(context, system_prompt)`, `output_data` holds `content`; latency is
abstracted to `0`. -/
structure AgentRecord where
  status : AgentStatus
  started_at : Bool
  completed_at : Bool
  input_data : Option (String × String)
  output_data : Option String
  tokens_used : Nat
  latency_ms : Nat
deriving DecidableEq, Repr

/-- A fresh `AgentExecution(status=IDLE)` as created in step 4. -/
def AgentRecord.freshIdle : AgentRecord := ⟨.idle, false, false, none, none, 0, 0⟩

/-- The observable behaviour of one `provider.stream(messages, config)` call:
the chunks the generator yields in order, then either a clean end
(`exc = none`) or an exception raised into the consuming loop. -/
structure StreamOutcome where
  chunks : List LLMChunk
  exc : Option Exc
deriving Repr

/-- `dict.get(key, default)` on a string-keyed dict. -/
def lookupD (m : List (String × String)) (k d : String) : String :=
  match m.lookup k with
  | some v => v
  | none => d

/-- Step c of `_run_agent` (lines 238–242): collect each parent's recorded
output from the in-memory outputs map in `parents_of` edge order, omitting
parents with no entry, and join with the literal separator. -/
def input_context_of (node_id : String) (edges : List EdgeJ)
    (agent_outputs : String → Option String) : String :=
  let parent_outputs := (get_node_dependencies node_id edges).filterMap agent_outputs
  if parent_outputs.isEmpty then "" else String.intercalate "\n\n---\n\n" parent_outputs

/-- Step d (lines 249–253): per-node `LLMConfig` with the source defaults. -/
def config_of (node_data : NodeData) : LLMConfig :=
  ⟨node_data.model.getD "gpt-4o", node_data.temperature.getD (7 / 10 : Rat),
    node_data.maxTokens.getD 2048⟩

/-- Step e (lines 256–262): the message list — a system message exactly when
`systemPrompt` is non-empty, then one user message carrying the context or
the fallback text. -/
def build_messages (node_data : NodeData) (input_context : String) : List LLMMessage :=
  let system_prompt := node_data.systemPrompt.getD ""
  let messages : List LLMMessage :=
    if system_prompt ≠ "" then [⟨"system", system_prompt⟩] else []
  let user_content := if input_context ≠ "" then input_context else "No input provided."
  messages ++ [⟨"user", user_content⟩]

/-- The `async for chunk in provider.stream(...)` loop body (lines 271–281):
returns the accumulated text of the non-final chunks consumed, the
`agent_output_chunk` events published for them, and `some tokens` when a
final chunk was reached (`break`), `none` when the list was exhausted. -/
def consumeChunks (node_id : String) : List LLMChunk → String × List Event × Option Nat
  | [] => ("", [], none)
  | c :: cs =>
    if c.is_final then ("", [], some c.tokens_used)
    else
      let r := consumeChunks node_id cs
      (c.content ++ r.1, .agent_output_chunk node_id c.content :: r.2.1, r.2.2)

/-- The outcome of `_run_agent`: the updated `AgentExecution` record, the
events it published, the entry written into `agent_outputs` (on success),
and the returned token count or the exception raised. -/
structure AgentResult where
  record : AgentRecord
  events : List Event
  output : Option String
  result : Except Exc Nat
deriving Repr

/-- `_run_agent` (lines 203–324).  `net` is the behaviour of
`provider.stream` for this node.  Fidelity notes: the `except` clauses at
lines 311–324 re-raise a `ProviderError` (or subclass) unchanged without
touching the record, and wrap any other exception as
`ExecutionError(str(exc), agent_id=node_id)` after marking the record failed
and publishing `agent_status failed`; a stream that ends without a final
chunk leaves `tokens_used = 0`; a final chunk stops consumption before any
later exception could be observed. -/
def run_agent (node_id : String) (node_data : NodeData) (agent0 : AgentRecord)
    (edges : List EdgeJ) (agent_outputs : String → Option String)
    (api_keys : List (String × String))
    (net : String → List LLMMessage → LLMConfig → StreamOutcome) : AgentResult :=
  -- a. IDLE → RUNNING, started_at, flush, publish agent_status running
  let agent1 : AgentRecord := { agent0 with status := .running, started_at := true }
  let ev0 : List Event := [.agent_status node_id "running"]
  let ctx := input_context_of node_id edges agent_outputs
  let provider_type := node_data.provider.getD "openai"
  let api_key := lookupD api_keys provider_type ""
  match get_provider provider_type api_key with
  | .error e =>
    -- registry failures are ProviderErrors: `except ProviderError: raise`
    ⟨agent1, ev0, none, .error e⟩
  | .ok _ =>
    let config := config_of node_data
    let messages := build_messages node_data ctx
    let agent2 : AgentRecord :=
      { agent1 with input_data := some (ctx, node_data.systemPrompt.getD "") }
    let outcome := net node_id messages config
    match consumeChunks node_id outcome.chunks with
    | (full_content, chunk_events, some tokens) =>
      -- the final chunk was reached: RUNNING → COMPLETED
      ⟨{ agent2 with
          status := .completed
          output_data := some full_content
          tokens_used := tokens
          latency_ms := 0
          completed_at := true },
        ev0 ++ chunk_events ++ [.agent_completed node_id (full_content.take 500) tokens 0],
        some full_content, .ok tokens⟩
    | (full_content, chunk_events, none) =>
      match outcome.exc with
      | none =>
        -- generator exhausted without a final chunk: tokens_used stays 0
        ⟨{ agent2 with
            status := .completed
            output_data := some full_content
            tokens_used := 0
            latency_ms := 0
            completed_at := true },
          ev0 ++ chunk_events ++ [.agent_completed node_id (full_content.take 500) 0 0],
          some full_content, .ok 0⟩
      | some e =>
        if e.isProviderError then
          -- `except ProviderError: raise`
          ⟨agent2, ev0 ++ chunk_events, none, .error e⟩
        else
          -- `except Exception`: mark failed, publish, wrap as ExecutionError
          ⟨{ agent2 with
              status := .failed
              completed_at := true },
            ev0 ++ chunk_events ++ [.agent_status node_id "failed"], none,
            .error (.executionError e.str (some node_id))⟩

/-- `node_map[node_id]` for `node_map = {node["id"]: node for node in nodes}`;
with duplicate ids the later entry wins, as in a dict comprehension. -/
def nodeMapLookup (nodes : List NodeJ) (node_id : String) : Option NodeJ :=
  (nodes.filter (fun n => n.id == node_id)).getLast?

/-- Mutating one `AgentExecution` record in the per-run map. -/
def setAgent (agents : List (String × AgentRecord)) (k : String) (v : AgentRecord) :
    List (String × AgentRecord) :=
  agents.map (fun p => if p.1 = k then (k, v) else p)

/-- The mutable state of one run inside the node loop. -/
structure EngineState where
  exec : ExecRecord
  agents : List (String × AgentRecord)
  agent_outputs : String → Option String
  events : List Event
  total_tokens : Nat

/-- The `for node_id in execution_order:` loop (lines 123–162).  `cancelled i`
is the value of `_is_cancelled(execution_id)` at the check before the `i`-th
node (the registry is written concurrently by `cancel_execution`; the engine
observes it only at these points).  Returns the state at loop exit and the
exception escaping the loop, if any. -/
def execLoop (nodes : List NodeJ) (edges : List EdgeJ)
    (trigger_input : List (String × String)) (api_keys : List (String × String))
    (net : String → List LLMMessage → LLMConfig → StreamOutcome)
    (cancelled : Nat → Bool) :
    List String → Nat → EngineState → EngineState × Option Exc
  | [], _, st => (st, none)
  | node_id :: rest, i, st =>
    if cancelled i then
      -- CANCELLED + terminal event, then `break`
      ({ st with
          exec := { st.exec with status := .cancelled }
          events := st.events ++ [.workflow_completed "cancelled" none] }, none)
    else
      match nodeMapLookup nodes node_id with
      | none =>
        -- `node_map[node_id]` raises KeyError (unreachable: the order is a
        -- subset of the known node ids)
        (st, some (.pyError node_id))
      | some node =>
        if node.type ≠ "agent" then
          -- skip non-agent nodes, seeding their output from the trigger
          let agent_exec := ((st.agents.lookup node_id).getD AgentRecord.freshIdle)
          let trigger_text := (trigger_input.lookup "input").getD ""
          execLoop nodes edges trigger_input api_keys net cancelled rest (i + 1)
            { st with
                agents := setAgent st.agents node_id { agent_exec with status := .skipped }
                agent_outputs := fun x => if x = node_id then some trigger_text
                  else st.agent_outputs x
                events := st.events ++ [.agent_status node_id "skipped"] }
        else
          let agent_exec := ((st.agents.lookup node_id).getD AgentRecord.freshIdle)
          let r := run_agent node_id node.data agent_exec edges st.agent_outputs api_keys net
          match r.result with
          | .ok tokens =>
            execLoop nodes edges trigger_input api_keys net cancelled rest (i + 1)
              { st with
                  agents := setAgent st.agents node_id r.record
                  agent_outputs := fun x => if x = node_id then r.output
                    else st.agent_outputs x
                  events := st.events ++ r.events
                  total_tokens := st.total_tokens + tokens }
          | .error e =>
            ({ st with
                agents := setAgent st.agents node_id r.record
                events := st.events ++ r.events }, some e)

/-- What `run_workflow` leaves behind: the persisted workflow record, the
persisted agent records, the full event trace of the channel, and whether
the run id was discarded from the cancellation registry. -/
structure RunResult where
  exec : ExecRecord
  agents : List (String × AgentRecord)
  events : List Event
  registry_cleared : Bool

/-- Steps 6–8 of `run_workflow` (lines 164–200): the completion branch when
no exception escaped and the run was not cancelled, the `except` handler,
and the `finally` discard of the cancellation-registry entry. -/
def finalizeRun (body : EngineState × Option Exc) : RunResult :=
  match body with
  | (st, none) =>
    if st.exec.status ≠ .cancelled then
      -- step 6: COMPLETED, completed_at, terminal event with totals
      ⟨{ st.exec with
          status := .completed
          completed_at := true }, st.agents,
        st.events ++ [.workflow_completed "completed" (some st.total_tokens)], true⟩
    else
      ⟨st.exec, st.agents, st.events, true⟩
  | (st, some e) =>
    -- step 7: FAILED, error, completed_at, error event then terminal event
    ⟨{ st.exec with
        status := .failed
        error := some e.str
        completed_at := true }, st.agents,
      st.events ++ [.error none e.str "EXECUTION_ERROR", .workflow_completed "failed" none],
      true⟩

/-- `run_workflow` (lines 63–200), as a function of the canvas, the trigger
input, the API-key map, the per-node stream behaviour `net`, and the
cancellation-registry observations `cancelled`.  The record enters in
`pending` with no timestamps; step 1 sets `running`/`started_at` and
publishes `workflow_status running` before anything can fail. -/
def runBody (nodes : List NodeJ) (edges : List EdgeJ)
    (trigger_input : List (String × String)) (api_keys : List (String × String))
    (net : String → List LLMMessage → LLMConfig → StreamOutcome)
    (cancelled : Nat → Bool) : EngineState × Option Exc :=
  if nodes.isEmpty then
    (⟨⟨.running, true, false, none⟩, [], fun _ => none, [.workflow_status "running"], 0⟩,
      some (.executionError "Workflow has no nodes to execute" none))
  else
    match topological_sort nodes edges with
    | .error cyc =>
      -- the `ValidationError` of `topological_sort` propagates as fatal
      (⟨⟨.running, true, false, none⟩, [], fun _ => none, [.workflow_status "running"], 0⟩,
        some (.validationError (cycleMessage cyc)))
    | .ok execution_order =>
      execLoop nodes edges trigger_input api_keys net cancelled execution_order 0
        ⟨⟨.running, true, false, none⟩,
          execution_order.map (fun nid => (nid, AgentRecord.freshIdle)),
          fun _ => none, [.workflow_status "running"], 0⟩

def run_workflow (nodes : List NodeJ) (edges : List EdgeJ)
    (trigger_input : List (String × String)) (api_keys : List (String × String))
    (net : String → List LLMMessage → LLMConfig → StreamOutcome)
    (cancelled : Nat → Bool) : RunResult :=
  finalizeRun (runBody nodes edges trigger_input api_keys net cancelled)

/-! ## Per-agent claims -/

/-- **C6.** The message list an agent node's provider receives (`run_agent`
passes `build_messages node_data (input_context_of …)` to the stream): a
system message exactly when the node's `systemPrompt` is non-empty, then one
user message whose content is the recorded parent outputs in `parents_of`
edge order (missing entries omitted) joined with `"\n\n---\n\n"`, or
`"No input provided."` when that joined context is empty. -/
theorem c6_message_assembly (node_data : NodeData) (node_id : String)
    (edges : List EdgeJ) (agent_outputs : String → Option String) :
    build_messages node_data (input_context_of node_id edges agent_outputs) =
      (if node_data.systemPrompt.getD "" ≠ ""
        then [LLMMessage.mk "system" (node_data.systemPrompt.getD "")] else [])
      ++ [LLMMessage.mk "user"
          (if String.intercalate "\n\n---\n\n"
              ((get_node_dependencies node_id edges).filterMap agent_outputs) = ""
            then "No input provided."
            else String.intercalate "\n\n---\n\n"
              ((get_node_dependencies node_id edges).filterMap agent_outputs))] := by
  unfold build_messages input_context_of
  by_cases he : ((get_node_dependencies node_id edges).filterMap agent_outputs).isEmpty
  · rw [if_pos he]
    have hnil : (get_node_dependencies node_id edges).filterMap agent_outputs = [] := by
      simpa using he
    rw [hnil]
    rfl
  · rw [if_neg he]
    by_cases hj : String.intercalate "\n\n---\n\n"
        ((get_node_dependencies node_id edges).filterMap agent_outputs) = ""
    · rw [if_pos hj]
      simp [hj]
    · rw [if_neg hj]
      simp [hj]

/-- **C6 witness**: the diamond join at a concrete node with two parents,
one of them without a recorded output. -/
theorem c6_witness :
    build_messages ⟨none, none, none, none, some "be brief"⟩
        (input_context_of "d" [⟨"b", "d"⟩, ⟨"c", "d"⟩, ⟨"x", "y"⟩]
          (fun k => if k = "b" then some "outB" else if k = "c" then some "outC" else none)) =
      [LLMMessage.mk "system" "be brief",
       LLMMessage.mk "user" ("outB" ++ "\n\n---\n\n" ++ "outC")] := by
  have h := c6_message_assembly ⟨none, none, none, none, some "be brief"⟩ "d"
    [⟨"b", "d"⟩, ⟨"c", "d"⟩, ⟨"x", "y"⟩]
    (fun k => if k = "b" then some "outB" else if k = "c" then some "outC" else none)
  rw [h]
  rfl

theorem get_provider_error_is_provider {provider_type api_key : String} {e : Exc}
    (h : get_provider provider_type api_key = .error e) : e.isProviderError = true := by
  unfold get_provider at h
  by_cases h1 : api_key = ""
  · rw [if_pos h1] at h
    cases h
    rfl
  · rw [if_neg h1] at h
    by_cases h2 : provider_type ∈ providerMapKeys
    · rw [if_pos h2] at h
      cases h
    · rw [if_neg h2] at h
      cases h
      rfl

/-- Every event the chunk-consumption loop publishes is an
`agent_output_chunk` for this agent. -/
theorem consumeChunks_events (node_id : String) (cs : List LLMChunk) :
    ∀ ev ∈ (consumeChunks node_id cs).2.1, ∃ c, ev = Event.agent_output_chunk node_id c := by
  induction cs with
  | nil =>
    intro ev hev
    simp [consumeChunks] at hev
  | cons c cs ih =>
    intro ev hev
    by_cases hf : c.is_final
    · simp [consumeChunks, hf] at hev
    · simp only [consumeChunks, hf, Bool.false_eq_true, if_false] at hev
      rcases List.mem_cons.mp hev with rfl | hev2
      · exact ⟨c.content, rfl⟩
      · exact ih ev hev2

/-! Branch characterisations of `run_agent`, one per control path. -/

theorem run_agent_registry_error (node_id : String) (node_data : NodeData)
    (agent0 : AgentRecord) (edges : List EdgeJ) (agent_outputs : String → Option String)
    (api_keys : List (String × String))
    (net : String → List LLMMessage → LLMConfig → StreamOutcome) (e : Exc)
    (h : get_provider (node_data.provider.getD "openai")
      (lookupD api_keys (node_data.provider.getD "openai") "") = .error e) :
    run_agent node_id node_data agent0 edges agent_outputs api_keys net =
      ⟨{ agent0 with status := .running, started_at := true },
        [.agent_status node_id "running"], none, .error e⟩ := by
  simp only [run_agent, h]

theorem run_agent_stream_final (node_id : String) (node_data : NodeData)
    (agent0 : AgentRecord) (edges : List EdgeJ) (agent_outputs : String → Option String)
    (api_keys : List (String × String))
    (net : String → List LLMMessage → LLMConfig → StreamOutcome)
    (p fc : String) (cev : List Event) (t : Nat)
    (hgp : get_provider (node_data.provider.getD "openai")
      (lookupD api_keys (node_data.provider.getD "openai") "") = .ok p)
    (hcc : consumeChunks node_id
        (net node_id (build_messages node_data (input_context_of node_id edges agent_outputs))
          (config_of node_data)).chunks = (fc, cev, some t)) :
    run_agent node_id node_data agent0 edges agent_outputs api_keys net =
      ⟨{ { agent0 with status := .running, started_at := true } with
          status := .completed
          input_data := some (input_context_of node_id edges agent_outputs,
            node_data.systemPrompt.getD "")
          output_data := some fc
          tokens_used := t
          latency_ms := 0
          completed_at := true },
        [.agent_status node_id "running"] ++ cev
          ++ [.agent_completed node_id (fc.take 500) t 0],
        some fc, .ok t⟩ := by
  simp only [run_agent, hgp, hcc]

theorem run_agent_stream_exhausted (node_id : String) (node_data : NodeData)
    (agent0 : AgentRecord) (edges : List EdgeJ) (agent_outputs : String → Option String)
    (api_keys : List (String × String))
    (net : String → List LLMMessage → LLMConfig → StreamOutcome)
    (p fc : String) (cev : List Event)
    (hgp : get_provider (node_data.provider.getD "openai")
      (lookupD api_keys (node_data.provider.getD "openai") "") = .ok p)
    (hcc : consumeChunks node_id
        (net node_id (build_messages node_data (input_context_of node_id edges agent_outputs))
          (config_of node_data)).chunks = (fc, cev, none))
    (hexc : (net node_id (build_messages node_data (input_context_of node_id edges agent_outputs))
        (config_of node_data)).exc = none) :
    run_agent node_id node_data agent0 edges agent_outputs api_keys net =
      ⟨{ { agent0 with status := .running, started_at := true } with
          status := .completed
          input_data := some (input_context_of node_id edges agent_outputs,
            node_data.systemPrompt.getD "")
          output_data := some fc
          tokens_used := 0
          latency_ms := 0
          completed_at := true },
        [.agent_status node_id "running"] ++ cev
          ++ [.agent_completed node_id (fc.take 500) 0 0],
        some fc, .ok 0⟩ := by
  simp only [run_agent, hgp, hcc, hexc]

theorem run_agent_stream_provider_exc (node_id : String) (node_data : NodeData)
    (agent0 : AgentRecord) (edges : List EdgeJ) (agent_outputs : String → Option String)
    (api_keys : List (String × String))
    (net : String → List LLMMessage → LLMConfig → StreamOutcome)
    (p fc : String) (cev : List Event) (e2 : Exc)
    (hgp : get_provider (node_data.provider.getD "openai")
      (lookupD api_keys (node_data.provider.getD "openai") "") = .ok p)
    (hcc : consumeChunks node_id
        (net node_id (build_messages node_data (input_context_of node_id edges agent_outputs))
          (config_of node_data)).chunks = (fc, cev, none))
    (hexc : (net node_id (build_messages node_data (input_context_of node_id edges agent_outputs))
        (config_of node_data)).exc = some e2)
    (hp : e2.isProviderError = true) :
    run_agent node_id node_data agent0 edges agent_outputs api_keys net =
      ⟨{ { agent0 with status := .running, started_at := true } with
          input_data := some (input_context_of node_id edges agent_outputs,
            node_data.systemPrompt.getD "") },
        [.agent_status node_id "running"] ++ cev, none, .error e2⟩ := by
  simp only [run_agent, hgp, hcc, hexc, hp, if_true]

theorem run_agent_stream_other_exc (node_id : String) (node_data : NodeData)
    (agent0 : AgentRecord) (edges : List EdgeJ) (agent_outputs : String → Option String)
    (api_keys : List (String × String))
    (net : String → List LLMMessage → LLMConfig → StreamOutcome)
    (p fc : String) (cev : List Event) (e2 : Exc)
    (hgp : get_provider (node_data.provider.getD "openai")
      (lookupD api_keys (node_data.provider.getD "openai") "") = .ok p)
    (hcc : consumeChunks node_id
        (net node_id (build_messages node_data (input_context_of node_id edges agent_outputs))
          (config_of node_data)).chunks = (fc, cev, none))
    (hexc : (net node_id (build_messages node_data (input_context_of node_id edges agent_outputs))
        (config_of node_data)).exc = some e2)
    (hp : e2.isProviderError = false) :
    run_agent node_id node_data agent0 edges agent_outputs api_keys net =
      ⟨{ { agent0 with status := .running, started_at := true } with
          status := .failed
          input_data := some (input_context_of node_id edges agent_outputs,
            node_data.systemPrompt.getD "")
          completed_at := true },
        [.agent_status node_id "running"] ++ cev ++ [.agent_status node_id "failed"],
        none, .error (.executionError e2.str (some node_id))⟩ := by
  simp only [run_agent, hgp, hcc, hexc, hp, Bool.false_eq_true, if_false]

/-- **C1 (amended).** For an exception `e` escaping `_run_agent`:
if `e` is a `ProviderError` (including `ProviderAuthError` and
`ProviderRateLimitError`), the `except ProviderError: raise` clause re-raises
it unchanged — the agent's record is left in `running` with `completed_at`
untouched and no `agent_status failed` event is published; only for a
non-provider exception does the handler set the record to `failed` with
`completed_at`, publish `agent_status failed` as the last event, and wrap
the exception as `ExecutionError` carrying the node id.  Either way the
exception propagates to `run_workflow`'s outer handler and fails the run
(the failure path is characterised by `c5_terminal_events`). -/
theorem c1_provider_exceptions_not_wrapped (node_id : String) (node_data : NodeData)
    (agent0 : AgentRecord) (edges : List EdgeJ) (agent_outputs : String → Option String)
    (api_keys : List (String × String))
    (net : String → List LLMMessage → LLMConfig → StreamOutcome) (e : Exc)
    (herr : (run_agent node_id node_data agent0 edges agent_outputs api_keys net).result
      = .error e) :
    (e.isProviderError = true →
      (run_agent node_id node_data agent0 edges agent_outputs api_keys net).record.status
          = .running ∧
      (run_agent node_id node_data agent0 edges agent_outputs api_keys net).record.completed_at
          = agent0.completed_at ∧
      Event.agent_status node_id "failed"
        ∉ (run_agent node_id node_data agent0 edges agent_outputs api_keys net).events) ∧
    (e.isProviderError = false →
      (∃ msg, e = .executionError msg (some node_id)) ∧
      (run_agent node_id node_data agent0 edges agent_outputs api_keys net).record.status
          = .failed ∧
      (run_agent node_id node_data agent0 edges agent_outputs api_keys net).record.completed_at
          = true ∧
      (run_agent node_id node_data agent0 edges agent_outputs api_keys net).events.getLast?
          = some (.agent_status node_id "failed")) := by
  cases hgp : get_provider (node_data.provider.getD "openai")
      (lookupD api_keys (node_data.provider.getD "openai") "") with
  | error eg =>
    rw [run_agent_registry_error node_id node_data agent0 edges agent_outputs
      api_keys net eg hgp] at herr ⊢
    simp only [] at herr
    cases herr
    constructor
    · intro _
      refine ⟨rfl, rfl, ?_⟩
      intro hmem
      simp at hmem
    · intro hfalse
      rw [get_provider_error_is_provider hgp] at hfalse
      cases hfalse
  | ok p =>
    rcases hcc : consumeChunks node_id
        (net node_id (build_messages node_data (input_context_of node_id edges agent_outputs))
          (config_of node_data)).chunks with ⟨fc, cev, tok⟩
    cases tok with
    | some t =>
      rw [run_agent_stream_final node_id node_data agent0 edges agent_outputs
        api_keys net p fc cev t hgp hcc] at herr
      simp at herr
    | none =>
      cases hexc : (net node_id
          (build_messages node_data (input_context_of node_id edges agent_outputs))
          (config_of node_data)).exc with
      | none =>
        rw [run_agent_stream_exhausted node_id node_data agent0 edges agent_outputs
          api_keys net p fc cev hgp hcc hexc] at herr
        simp at herr
      | some e2 =>
        by_cases hp : e2.isProviderError = true
        · rw [run_agent_stream_provider_exc node_id node_data agent0 edges agent_outputs
            api_keys net p fc cev e2 hgp hcc hexc hp] at herr ⊢
          simp only [] at herr
          cases herr
          constructor
          · intro _
            refine ⟨rfl, rfl, ?_⟩
            intro hmem
            rcases List.mem_append.mp hmem with hmem | hmem
            · simp at hmem
            · obtain ⟨c, hc⟩ := consumeChunks_events node_id _ _
                (by rw [hcc]; exact hmem)
              exact Event.noConfusion hc
          · intro hfalse
            rw [hp] at hfalse
            cases hfalse
        · have hp2 : e2.isProviderError = false := by
            cases h : e2.isProviderError
            · rfl
            · exact absurd h hp
          rw [run_agent_stream_other_exc node_id node_data agent0 edges agent_outputs
            api_keys net p fc cev e2 hgp hcc hexc hp2] at herr ⊢
          simp only [] at herr
          cases herr
          constructor
          · intro htrue
            simp [Exc.isProviderError] at htrue
          · intro _
            refine ⟨⟨e2.str, rfl⟩, rfl, rfl, ?_⟩
            show ([Event.agent_status node_id "running"] ++ cev
              ++ [Event.agent_status node_id "failed"]).getLast?
                = some (Event.agent_status node_id "failed")
            rw [List.getLast?_concat]
/-- **C1 counterexample.** With no API key supplied the registry raises
`ProviderAuthError` inside steps a–i; `_run_agent`'s
`except ProviderError: raise` re-raises it unchanged: the agent record stays
`running` — never set to `failed`, no `completed_at`, no
`agent_status failed` event — and the propagated exception is the
`ProviderAuthError` itself, not an `ExecutionError` carrying the node id,
contradicting the claim for provider exceptions. -/
theorem c1_counterexample :
    (run_agent "n1" NodeData.empty AgentRecord.freshIdle [] (fun _ => none) []
        (fun _ _ _ => ⟨[], none⟩)).result = .error (.providerAuth "openai") ∧
    (run_agent "n1" NodeData.empty AgentRecord.freshIdle [] (fun _ => none) []
        (fun _ _ _ => ⟨[], none⟩)).record.status = .running ∧
    (run_agent "n1" NodeData.empty AgentRecord.freshIdle [] (fun _ => none) []
        (fun _ _ _ => ⟨[], none⟩)).record.status ≠ .failed ∧
    (run_agent "n1" NodeData.empty AgentRecord.freshIdle [] (fun _ => none) []
        (fun _ _ _ => ⟨[], none⟩)).record.completed_at = false ∧
    (run_agent "n1" NodeData.empty AgentRecord.freshIdle [] (fun _ => none) []
        (fun _ _ _ => ⟨[], none⟩)).events = [.agent_status "n1" "running"] := by
  refine ⟨rfl, rfl, by decide, rfl, rfl⟩

/-- **C1 witness**: the amended theorem applied to a stream that raises a
non-provider exception — the wrap-and-mark-failed branch. -/
theorem c1_witness :
    (run_agent "n1" NodeData.empty AgentRecord.freshIdle [] (fun _ => none)
        [("openai", "sk-k")] (fun _ _ _ => ⟨[], some (.pyError "boom")⟩)).record.status
      = .failed ∧
    (run_agent "n1" NodeData.empty AgentRecord.freshIdle [] (fun _ => none)
        [("openai", "sk-k")] (fun _ _ _ => ⟨[], some (.pyError "boom")⟩)).events.getLast?
      = some (.agent_status "n1" "failed") := by
  have h := c1_provider_exceptions_not_wrapped "n1" NodeData.empty AgentRecord.freshIdle []
    (fun _ => none) [("openai", "sk-k")] (fun _ _ _ => ⟨[], some (.pyError "boom")⟩)
    (.executionError "boom" (some "n1")) rfl
  obtain ⟨-, h2⟩ := h
  obtain ⟨-, hs, -, hl⟩ := h2 rfl
  exact ⟨hs, hl⟩

/-! ## Orchestrator-level claims -/

theorem exists_concat_of_getLast? {α : Type} {l : List α} {a : α}
    (h : l.getLast? = some a) : ∃ pre, l = pre ++ [a] := by
  rw [List.getLast?_eq_head?_reverse] at h
  cases hr : l.reverse with
  | nil =>
    rw [hr] at h
    simp at h
  | cons x t =>
    rw [hr] at h
    simp only [List.head?_cons, Option.some.injEq] at h
    subst h
    refine ⟨t.reverse, ?_⟩
    have h2 := congrArg List.reverse hr
    simpa using h2

/-- Inside the node loop the workflow record is touched only by the
cancellation branch, which sets `status := cancelled` — nothing else — and
publishes the terminal cancelled event last before breaking; an escaping
exception leaves the record untouched. -/
theorem execLoop_cases (nodes : List NodeJ) (edges : List EdgeJ)
    (trigger_input : List (String × String)) (api_keys : List (String × String))
    (net : String → List LLMMessage → LLMConfig → StreamOutcome) (cancelled : Nat → Bool) :
    ∀ (order : List String) (i : Nat) (st : EngineState),
      ((execLoop nodes edges trigger_input api_keys net cancelled order i st).2 = none ∧
        (execLoop nodes edges trigger_input api_keys net cancelled order i st).1.exec
          = st.exec) ∨
      ((execLoop nodes edges trigger_input api_keys net cancelled order i st).2 = none ∧
        (execLoop nodes edges trigger_input api_keys net cancelled order i st).1.exec
          = { st.exec with status := .cancelled } ∧
        (execLoop nodes edges trigger_input api_keys net cancelled order i st).1.events.getLast?
          = some (.workflow_completed "cancelled" none)) ∨
      (∃ e, (execLoop nodes edges trigger_input api_keys net cancelled order i st).2 = some e ∧
        (execLoop nodes edges trigger_input api_keys net cancelled order i st).1.exec
          = st.exec) := by
  intro order
  induction order with
  | nil =>
    intro i st
    exact Or.inl ⟨rfl, rfl⟩
  | cons node_id rest ih =>
    intro i st
    by_cases hc : cancelled i = true
    · refine Or.inr (Or.inl ?_)
      simp only [execLoop, hc, if_true]
      refine ⟨by trivial, by trivial, ?_⟩
      rw [List.getLast?_concat]
    · have hc2 : cancelled i = false := by
        cases h : cancelled i
        · rfl
        · exact absurd h hc
      cases hn : nodeMapLookup nodes node_id with
      | none =>
        refine Or.inr (Or.inr ⟨.pyError node_id, ?_⟩)
        simp only [execLoop, hc2, Bool.false_eq_true, if_false, hn]
        exact ⟨by trivial, by trivial⟩
      | some node =>
        by_cases ht : node.type ≠ "agent"
        · -- skipped node: recurse
          have hred : execLoop nodes edges trigger_input api_keys net cancelled
              (node_id :: rest) i st
              = execLoop nodes edges trigger_input api_keys net cancelled rest (i + 1)
                { st with
                    agents := setAgent st.agents node_id
                      { ((st.agents.lookup node_id).getD AgentRecord.freshIdle) with
                          status := .skipped }
                    agent_outputs := fun x => if x = node_id
                      then some ((trigger_input.lookup "input").getD "")
                      else st.agent_outputs x
                    events := st.events ++ [.agent_status node_id "skipped"] } := by
            simp only [execLoop, hc2, Bool.false_eq_true, if_false, hn, if_pos ht]
          rw [hred]
          exact ih (i + 1) _
        · -- agent node
          have hred : ∀ st2 : EngineState, execLoop nodes edges trigger_input api_keys net
              cancelled (node_id :: rest) i st2
              = (let agent_exec := (st2.agents.lookup node_id).getD AgentRecord.freshIdle
                 let r := run_agent node_id node.data agent_exec edges st2.agent_outputs
                   api_keys net
                 match r.result with
                 | .ok tokens =>
                   execLoop nodes edges trigger_input api_keys net cancelled rest (i + 1)
                     { st2 with
                         agents := setAgent st2.agents node_id r.record
                         agent_outputs := fun x => if x = node_id then r.output
                           else st2.agent_outputs x
                         events := st2.events ++ r.events
                         total_tokens := st2.total_tokens + tokens }
                 | .error e =>
                   ({ st2 with
                       agents := setAgent st2.agents node_id r.record
                       events := st2.events ++ r.events }, some e)) := by
            intro st2
            simp only [execLoop, hc2, Bool.false_eq_true, if_false, hn, if_neg ht]
          rw [hred st]
          cases hres : (run_agent node_id node.data
              ((st.agents.lookup node_id).getD AgentRecord.freshIdle) edges
              st.agent_outputs api_keys net).result with
          | ok tokens =>
            simp only [hres]
            exact ih (i + 1) _
          | error e =>
            simp only [hres]
            exact Or.inr (Or.inr ⟨e, by trivial, by trivial⟩)

/-- The terminal-assembly behaviour of `finalizeRun`: the last event is
always a `workflow_completed`; a failure records the error and publishes
`error` then `workflow_completed failed`; a cancelled run's record passes
through unchanged; the registry entry is always discarded. -/
theorem finalizeRun_spec (st : EngineState) (e? : Option Exc)
    (hcancel : st.exec.status = .cancelled →
      st.events.getLast? = some (.workflow_completed "cancelled" none)) :
    (∃ pre s t, (finalizeRun (st, e?)).events = pre ++ [.workflow_completed s t]) ∧
    ((finalizeRun (st, e?)).exec.status = .failed →
      (finalizeRun (st, e?)).exec.error ≠ none ∧
      (finalizeRun (st, e?)).exec.completed_at = true ∧
      ∃ pre m, (finalizeRun (st, e?)).events
        = pre ++ [.error none m "EXECUTION_ERROR", .workflow_completed "failed" none]) ∧
    ((finalizeRun (st, e?)).exec.status = .cancelled →
      (finalizeRun (st, e?)).exec = st.exec ∧ st.exec.status = .cancelled) ∧
    ((finalizeRun (st, e?)).exec.status = .completed →
      (finalizeRun (st, e?)).exec.completed_at = true) ∧
    (finalizeRun (st, e?)).registry_cleared = true := by
  cases e? with
  | some e =>
    simp only [finalizeRun]
    refine ⟨⟨st.events ++ [.error none e.str "EXECUTION_ERROR"], "failed", none, by simp⟩,
      ?_, ?_, ?_, by trivial⟩
    · intro _
      exact ⟨by simp, by trivial, st.events, e.str, by trivial⟩
    · intro h
      cases h
    · intro h
      cases h
  | none =>
    by_cases hs : st.exec.status = .cancelled
    · have hne : ¬ st.exec.status ≠ .cancelled := by simpa using hs
      simp only [finalizeRun, if_neg hne]
      obtain ⟨pre, hpre⟩ := exists_concat_of_getLast? (hcancel hs)
      refine ⟨⟨pre, "cancelled", none, hpre⟩, ?_, fun _ => ⟨by trivial, hs⟩, ?_, by trivial⟩
      · intro h
        rw [hs] at h
        cases h
      · intro h
        rw [hs] at h
        cases h
    · have hne : st.exec.status ≠ .cancelled := hs
      simp only [finalizeRun, if_pos hne]
      refine ⟨⟨st.events, "completed", some st.total_tokens, by trivial⟩, ?_, ?_,
        fun _ => by trivial, by trivial⟩
      · intro h
        cases h
      · intro h
        cases h

/-- **C5.** On every execution the last event published on the run's channel
is a `workflow_completed` event; and whenever the run ends `failed` — the
uncaught-failure path — the record carries `error` and `completed_at` and
the trace ends with an `error` event followed by
`workflow_completed{failed}`. -/
theorem runBody_empty (nodes : List NodeJ) (edges : List EdgeJ)
    (trigger_input api_keys : List (String × String))
    (net : String → List LLMMessage → LLMConfig → StreamOutcome) (cancelled : Nat → Bool)
    (he : nodes.isEmpty = true) :
    runBody nodes edges trigger_input api_keys net cancelled =
      (⟨⟨.running, true, false, none⟩, [], fun _ => none, [.workflow_status "running"], 0⟩,
        some (.executionError "Workflow has no nodes to execute" none)) := by
  simp only [runBody, he, if_true]

theorem runBody_cycle (nodes : List NodeJ) (edges : List EdgeJ)
    (trigger_input api_keys : List (String × String))
    (net : String → List LLMMessage → LLMConfig → StreamOutcome) (cancelled : Nat → Bool)
    (cyc : List String)
    (he : nodes.isEmpty = false) (hts : topological_sort nodes edges = .error cyc) :
    runBody nodes edges trigger_input api_keys net cancelled =
      (⟨⟨.running, true, false, none⟩, [], fun _ => none, [.workflow_status "running"], 0⟩,
        some (.validationError (cycleMessage cyc))) := by
  simp only [runBody, he, Bool.false_eq_true, if_false, hts]

theorem runBody_loop (nodes : List NodeJ) (edges : List EdgeJ)
    (trigger_input api_keys : List (String × String))
    (net : String → List LLMMessage → LLMConfig → StreamOutcome) (cancelled : Nat → Bool)
    (execution_order : List String)
    (he : nodes.isEmpty = false) (hts : topological_sort nodes edges = .ok execution_order) :
    runBody nodes edges trigger_input api_keys net cancelled =
      execLoop nodes edges trigger_input api_keys net cancelled execution_order 0
        ⟨⟨.running, true, false, none⟩,
          execution_order.map (fun nid => (nid, AgentRecord.freshIdle)),
          fun _ => none, [.workflow_status "running"], 0⟩ := by
  simp only [runBody, he, Bool.false_eq_true, if_false, hts]

/-- **C5.** On every execution the last event published on the run's channel
is a `workflow_completed` event; and whenever the run ends `failed` — the
uncaught-failure path — the record carries `error` and `completed_at` and
the trace ends with an `error` event followed by
`workflow_completed{failed}`. -/
theorem c5_terminal_events (nodes : List NodeJ) (edges : List EdgeJ)
    (trigger_input : List (String × String)) (api_keys : List (String × String))
    (net : String → List LLMMessage → LLMConfig → StreamOutcome) (cancelled : Nat → Bool) :
    (∃ pre s t, (run_workflow nodes edges trigger_input api_keys net cancelled).events
      = pre ++ [.workflow_completed s t]) ∧
    ((run_workflow nodes edges trigger_input api_keys net cancelled).exec.status = .failed →
      (run_workflow nodes edges trigger_input api_keys net cancelled).exec.error ≠ none ∧
      (run_workflow nodes edges trigger_input api_keys net cancelled).exec.completed_at
        = true ∧
      ∃ pre m, (run_workflow nodes edges trigger_input api_keys net cancelled).events
        = pre ++ [.error none m "EXECUTION_ERROR", .workflow_completed "failed" none]) := by
  unfold run_workflow
  cases he : nodes.isEmpty with
  | true =>
    rw [runBody_empty nodes edges trigger_input api_keys net cancelled he]
    have h := finalizeRun_spec
      ⟨⟨.running, true, false, none⟩, [], fun _ => none, [.workflow_status "running"], 0⟩
      (some (.executionError "Workflow has no nodes to execute" none))
      (by intro h2; simp at h2)
    exact ⟨h.1, h.2.1⟩
  | false =>
    cases hts : topological_sort nodes edges with
    | error cyc =>
      rw [runBody_cycle nodes edges trigger_input api_keys net cancelled cyc he hts]
      have h := finalizeRun_spec
        ⟨⟨.running, true, false, none⟩, [], fun _ => none, [.workflow_status "running"], 0⟩
        (some (.validationError (cycleMessage cyc)))
        (by intro h2; simp at h2)
      exact ⟨h.1, h.2.1⟩
    | ok execution_order =>
      rw [runBody_loop nodes edges trigger_input api_keys net cancelled execution_order he hts]
      rcases hloop : execLoop nodes edges trigger_input api_keys net cancelled
          execution_order 0
          ⟨⟨.running, true, false, none⟩,
            execution_order.map (fun nid => (nid, AgentRecord.freshIdle)),
            fun _ => none, [.workflow_status "running"], 0⟩ with ⟨stf, ef⟩
      have hcases := execLoop_cases nodes edges trigger_input api_keys net cancelled
        execution_order 0
        ⟨⟨.running, true, false, none⟩,
          execution_order.map (fun nid => (nid, AgentRecord.freshIdle)),
          fun _ => none, [.workflow_status "running"], 0⟩
      rw [hloop] at hcases
      rcases hcases with ⟨h1, h2⟩ | ⟨h1, h2, h3⟩ | ⟨e, h1, h2⟩
      · simp only [] at h1 h2
        rw [h1]
        have h := finalizeRun_spec stf none (by intro hx; rw [h2] at hx; simp at hx)
        exact ⟨h.1, h.2.1⟩
      · simp only [] at h1 h2 h3
        rw [h1]
        have h := finalizeRun_spec stf none (fun _ => h3)
        exact ⟨h.1, h.2.1⟩
      · simp only [] at h1 h2
        rw [h1]
        have h := finalizeRun_spec stf (some e) (by intro hx; rw [h2] at hx; simp at hx)
        exact ⟨h.1, h.2.1⟩
/-- **C5 witness**: the theorem applied to a concrete (empty, hence failing)
run. -/
theorem c5_witness :
    (∃ pre s t, (run_workflow [] [] [] [] (fun _ _ _ => ⟨[], none⟩)
        (fun _ => false)).events = pre ++ [.workflow_completed s t]) ∧
    ((run_workflow [] [] [] [] (fun _ _ _ => ⟨[], none⟩) (fun _ => false)).exec.status
        = .failed →
      (run_workflow [] [] [] [] (fun _ _ _ => ⟨[], none⟩) (fun _ => false)).exec.error
        ≠ none ∧
      (run_workflow [] [] [] [] (fun _ _ _ => ⟨[], none⟩) (fun _ => false)).exec.completed_at
        = true ∧
      ∃ pre m, (run_workflow [] [] [] [] (fun _ _ _ => ⟨[], none⟩) (fun _ => false)).events
        = pre ++ [.error none m "EXECUTION_ERROR", .workflow_completed "failed" none]) :=
  c5_terminal_events [] [] [] [] (fun _ _ _ => ⟨[], none⟩) (fun _ => false)

/-- **C10.** A run that terminates via the cancellation check changes only
the workflow record's `status`: `completed_at` remains unset and `error`
remains `None` (`started_at` stays set from step 1); the `completed` and
`failed` terminal transitions both set `completed_at`, and `failed` also
records `error`. -/
theorem c10_cancellation_frame (nodes : List NodeJ) (edges : List EdgeJ)
    (trigger_input : List (String × String)) (api_keys : List (String × String))
    (net : String → List LLMMessage → LLMConfig → StreamOutcome) (cancelled : Nat → Bool) :
    ((run_workflow nodes edges trigger_input api_keys net cancelled).exec.status
        = .cancelled →
      (run_workflow nodes edges trigger_input api_keys net cancelled).exec.completed_at
        = false ∧
      (run_workflow nodes edges trigger_input api_keys net cancelled).exec.error = none ∧
      (run_workflow nodes edges trigger_input api_keys net cancelled).exec.started_at
        = true) ∧
    ((run_workflow nodes edges trigger_input api_keys net cancelled).exec.status
        = .completed →
      (run_workflow nodes edges trigger_input api_keys net cancelled).exec.completed_at
        = true) ∧
    ((run_workflow nodes edges trigger_input api_keys net cancelled).exec.status = .failed →
      (run_workflow nodes edges trigger_input api_keys net cancelled).exec.completed_at
        = true ∧
      (run_workflow nodes edges trigger_input api_keys net cancelled).exec.error ≠ none) := by
  unfold run_workflow
  cases he : nodes.isEmpty with
  | true =>
    rw [runBody_empty nodes edges trigger_input api_keys net cancelled he]
    have h := finalizeRun_spec
      ⟨⟨.running, true, false, none⟩, [], fun _ => none, [.workflow_status "running"], 0⟩
      (some (.executionError "Workflow has no nodes to execute" none))
      (by intro h2; simp at h2)
    refine ⟨?_, h.2.2.2.1, fun hf => ⟨(h.2.1 hf).2.1, (h.2.1 hf).1⟩⟩
    intro hcan
    obtain ⟨-, habs⟩ := h.2.2.1 hcan
    simp at habs
  | false =>
    cases hts : topological_sort nodes edges with
    | error cyc =>
      rw [runBody_cycle nodes edges trigger_input api_keys net cancelled cyc he hts]
      have h := finalizeRun_spec
        ⟨⟨.running, true, false, none⟩, [], fun _ => none, [.workflow_status "running"], 0⟩
        (some (.validationError (cycleMessage cyc)))
        (by intro h2; simp at h2)
      refine ⟨?_, h.2.2.2.1, fun hf => ⟨(h.2.1 hf).2.1, (h.2.1 hf).1⟩⟩
      intro hcan
      obtain ⟨-, habs⟩ := h.2.2.1 hcan
      simp at habs
    | ok execution_order =>
      rw [runBody_loop nodes edges trigger_input api_keys net cancelled execution_order he hts]
      rcases hloop : execLoop nodes edges trigger_input api_keys net cancelled
          execution_order 0
          ⟨⟨.running, true, false, none⟩,
            execution_order.map (fun nid => (nid, AgentRecord.freshIdle)),
            fun _ => none, [.workflow_status "running"], 0⟩ with ⟨stf, ef⟩
      have hcases := execLoop_cases nodes edges trigger_input api_keys net cancelled
        execution_order 0
        ⟨⟨.running, true, false, none⟩,
          execution_order.map (fun nid => (nid, AgentRecord.freshIdle)),
          fun _ => none, [.workflow_status "running"], 0⟩
      rw [hloop] at hcases
      rcases hcases with ⟨h1, h2⟩ | ⟨h1, h2, h3⟩ | ⟨e, h1, h2⟩
      · simp only [] at h1 h2
        rw [h1]
        have h := finalizeRun_spec stf none (by intro hx; rw [h2] at hx; simp at hx)
        refine ⟨?_, h.2.2.2.1, fun hf => ⟨(h.2.1 hf).2.1, (h.2.1 hf).1⟩⟩
        intro hcan
        obtain ⟨-, habs⟩ := h.2.2.1 hcan
        rw [h2] at habs
        simp at habs
      · simp only [] at h1 h2 h3
        rw [h1]
        have h := finalizeRun_spec stf none (fun _ => h3)
        refine ⟨?_, h.2.2.2.1, fun hf => ⟨(h.2.1 hf).2.1, (h.2.1 hf).1⟩⟩
        intro hcan
        obtain ⟨hexeq, -⟩ := h.2.2.1 hcan
        rw [hexeq, h2]
        exact ⟨rfl, rfl, rfl⟩
      · simp only [] at h1 h2
        rw [h1]
        have h := finalizeRun_spec stf (some e) (by intro hx; rw [h2] at hx; simp at hx)
        refine ⟨?_, h.2.2.2.1, fun hf => ⟨(h.2.1 hf).2.1, (h.2.1 hf).1⟩⟩
        intro hcan
        obtain ⟨-, habs⟩ := h.2.2.1 hcan
        rw [h2] at habs
        simp at habs

/-- **C10 witness**: a concrete single-node run cancelled at the first
check. -/
theorem c10_witness :
    (run_workflow [⟨"a", "agent", NodeData.empty⟩] [] [] [] (fun _ _ _ => ⟨[], none⟩)
        (fun _ => true)).exec.completed_at = false ∧
    (run_workflow [⟨"a", "agent", NodeData.empty⟩] [] [] [] (fun _ _ _ => ⟨[], none⟩)
        (fun _ => true)).exec.error = none ∧
    (run_workflow [⟨"a", "agent", NodeData.empty⟩] [] [] [] (fun _ _ _ => ⟨[], none⟩)
        (fun _ => true)).exec.started_at = true :=
  (c10_cancellation_frame [⟨"a", "agent", NodeData.empty⟩] [] [] []
    (fun _ _ _ => ⟨[], none⟩) (fun _ => true)).1 (by decide)

/-! ## Cancellation (C4): state tracking across the node loop -/

theorem lookup_setAgent_ne (agents : List (String × AgentRecord)) (k : String)
    (v : AgentRecord) (k2 : String) (h : k2 ≠ k) :
    (setAgent agents k v).lookup k2 = agents.lookup k2 := by
  induction agents with
  | nil => rfl
  | cons p t ih =>
    obtain ⟨a, b⟩ := p
    have hb : (k2 == k) = false := beq_eq_false_iff_ne.mpr h
    by_cases hp : a = k
    · have hb2 : (k2 == a) = false := beq_eq_false_iff_ne.mpr (fun he => h (he.trans hp))
      simp only [setAgent, List.map_cons, if_pos (show (a, b).1 = k from hp),
        List.lookup_cons, hb, hb2]
      exact ih
    · simp only [setAgent, List.map_cons, if_neg (show ¬ (a, b).1 = k from hp),
        List.lookup_cons]
      cases hk2 : k2 == a
      · exact ih
      · rfl

theorem lookup_setAgent_self (agents : List (String × AgentRecord)) (k : String)
    (v : AgentRecord) (h : (agents.lookup k).isSome = true) :
    (setAgent agents k v).lookup k = some v := by
  induction agents with
  | nil => simp at h
  | cons p t ih =>
    obtain ⟨a, b⟩ := p
    by_cases hp : a = k
    · simp only [setAgent, List.map_cons, if_pos (show (a, b).1 = k from hp),
        List.lookup_cons, beq_self_eq_true]
    · have hb : (k == a) = false := beq_eq_false_iff_ne.mpr (fun he => hp he.symm)
      rw [List.lookup_cons, hb] at h
      simp only [setAgent, List.map_cons, if_neg (show ¬ (a, b).1 = k from hp),
        List.lookup_cons, hb]
      exact ih h

theorem lookup_setAgent_isSome (agents : List (String × AgentRecord)) (k : String)
    (v : AgentRecord) (k2 : String) :
    ((setAgent agents k v).lookup k2).isSome = (agents.lookup k2).isSome := by
  induction agents with
  | nil => rfl
  | cons p t ih =>
    obtain ⟨a, b⟩ := p
    by_cases hp : a = k
    · by_cases hk2 : k2 = k
      · have hb : (k2 == k) = true := beq_iff_eq.mpr hk2
        have hb2 : (k2 == a) = true := beq_iff_eq.mpr (by rw [hp]; exact hk2)
        simp only [setAgent, List.map_cons, if_pos (show (a, b).1 = k from hp),
          List.lookup_cons, hb, hb2]
        rfl
      · have hb : (k2 == k) = false := beq_eq_false_iff_ne.mpr hk2
        have hb2 : (k2 == a) = false := beq_eq_false_iff_ne.mpr
          (fun he => hk2 (he.trans hp))
        simp only [setAgent, List.map_cons, if_pos (show (a, b).1 = k from hp),
          List.lookup_cons, hb, hb2]
        exact ih
    · simp only [setAgent, List.map_cons, if_neg (show ¬ (a, b).1 = k from hp),
        List.lookup_cons]
      cases hk2 : k2 == a
      · exact ih
      · rfl

theorem lookup_freshIdle_map (order : List String) (nid : String) :
    (order.map (fun n => (n, AgentRecord.freshIdle))).lookup nid
      = if nid ∈ order then some AgentRecord.freshIdle else none := by
  induction order with
  | nil => simp
  | cons x t ih =>
    by_cases hx : nid = x
    · have hb : (nid == x) = true := beq_iff_eq.mpr hx
      simp only [List.map_cons, List.lookup_cons, hb, List.mem_cons]
      rw [if_pos (Or.inl hx)]
    · have hb : (nid == x) = false := beq_eq_false_iff_ne.mpr hx
      simp only [List.map_cons, List.lookup_cons, hb, ih, List.mem_cons]
      by_cases hm : nid ∈ t
      · rw [if_pos hm, if_pos (Or.inr hm)]
      · rw [if_neg hm, if_neg (by rintro (h1 | h2); exact hx h1; exact hm h2)]

/-- A per-node stream behaviour that always ends cleanly. -/
def StreamsClean (net : String → List LLMMessage → LLMConfig → StreamOutcome)
    (node_id : String) : Prop :=
  ∀ msgs config, (net node_id msgs config).exc = none

/-- The registry resolves this node's provider: a non-empty key for a
supported provider name. -/
def ProviderOk (api_keys : List (String × String)) (node_data : NodeData) : Prop :=
  lookupD api_keys (node_data.provider.getD "openai") "" ≠ "" ∧
  node_data.provider.getD "openai" ∈ providerMapKeys

/-- A node at which step 5 of the orchestrator cannot fail. -/
def NodeOk (nodes : List NodeJ) (api_keys : List (String × String))
    (net : String → List LLMMessage → LLMConfig → StreamOutcome) (node_id : String) : Prop :=
  ∃ node, nodeMapLookup nodes node_id = some node ∧
    (node.type ≠ "agent" ∨ (ProviderOk api_keys node.data ∧ StreamsClean net node_id))

theorem get_provider_ok {name key : String} (hk : key ≠ "") (hn : name ∈ providerMapKeys) :
    get_provider name key = .ok name := by
  unfold get_provider
  rw [if_neg hk, if_pos hn]

/-- A resolvable provider and a clean stream make `_run_agent` succeed, the
record ending `completed`. -/
theorem run_agent_ok (node_id : String) (node_data : NodeData) (agent0 : AgentRecord)
    (edges : List EdgeJ) (agent_outputs : String → Option String)
    (api_keys : List (String × String))
    (net : String → List LLMMessage → LLMConfig → StreamOutcome)
    (hprov : ProviderOk api_keys node_data) (hclean : StreamsClean net node_id) :
    ∃ t rec evs out, run_agent node_id node_data agent0 edges agent_outputs api_keys net
      = ⟨rec, evs, some out, .ok t⟩ ∧ rec.status = .completed := by
  have hgp : get_provider (node_data.provider.getD "openai")
      (lookupD api_keys (node_data.provider.getD "openai") "")
      = .ok (node_data.provider.getD "openai") := get_provider_ok hprov.1 hprov.2
  rcases hcc : consumeChunks node_id
      (net node_id (build_messages node_data (input_context_of node_id edges agent_outputs))
        (config_of node_data)).chunks with ⟨fc, cev, tok⟩
  cases tok with
  | some t =>
    exact ⟨t, _, _, fc, run_agent_stream_final node_id node_data agent0 edges agent_outputs
      api_keys net _ fc cev t hgp hcc, rfl⟩
  | none =>
    exact ⟨0, _, _, fc, run_agent_stream_exhausted node_id node_data agent0 edges
      agent_outputs api_keys net _ fc cev hgp hcc (hclean _ _), rfl⟩

/-- Processing a prefix of failure-free nodes with no cancellation request
leaves the workflow record untouched, marks each prefix node `completed`
(agent nodes) or `skipped` (others), and touches no other agent record. -/
theorem execLoop_good_prefix (nodes : List NodeJ) (edges : List EdgeJ)
    (trigger_input api_keys : List (String × String))
    (net : String → List LLMMessage → LLMConfig → StreamOutcome) (cancelled : Nat → Bool) :
    ∀ (pre rest : List String) (i : Nat) (st : EngineState),
      pre.Nodup →
      (∀ j, j < pre.length → cancelled (i + j) = false) →
      (∀ nid ∈ pre, NodeOk nodes api_keys net nid) →
      (∀ nid ∈ pre, (st.agents.lookup nid).isSome = true) →
      ∃ st2,
        execLoop nodes edges trigger_input api_keys net cancelled (pre ++ rest) i st
          = execLoop nodes edges trigger_input api_keys net cancelled rest
              (i + pre.length) st2 ∧
        st2.exec = st.exec ∧
        (∀ nid, nid ∉ pre → st2.agents.lookup nid = st.agents.lookup nid) ∧
        (∀ nid ∈ pre, ∀ node, nodeMapLookup nodes nid = some node →
          ∃ rec, st2.agents.lookup nid = some rec ∧
            rec.status = (if node.type = "agent" then .completed else .skipped)) := by
  intro pre
  induction pre with
  | nil =>
    intro rest i st _ _ _ _
    exact ⟨st, rfl, rfl, fun _ _ => rfl, by simp⟩
  | cons nid pre' ih =>
    intro rest i st hnodup hcanc hgood hsome
    have hc2 : cancelled i = false := hcanc 0 (by simp)
    obtain ⟨node, hn, hok⟩ := hgood nid (List.mem_cons_self nid pre')
    have hnodup' : pre'.Nodup := (List.nodup_cons.mp hnodup).2
    have hnidpre : nid ∉ pre' := (List.nodup_cons.mp hnodup).1
    by_cases htype : node.type = "agent"
    · -- the agent branch
      obtain ⟨hprov, hclean⟩ := hok.resolve_left (not_not_intro htype)
      obtain ⟨t, rec, evs, out, hra, hrst⟩ := run_agent_ok nid node.data
        ((st.agents.lookup nid).getD AgentRecord.freshIdle) edges st.agent_outputs
        api_keys net hprov hclean
      have hifneg : ¬ (node.type ≠ "agent") := by simpa using htype
      have hred : execLoop nodes edges trigger_input api_keys net cancelled
          ((nid :: pre') ++ rest) i st
          = execLoop nodes edges trigger_input api_keys net cancelled (pre' ++ rest) (i + 1)
            { st with
                agents := setAgent st.agents nid rec
                agent_outputs := fun x => if x = nid then some out else st.agent_outputs x
                events := st.events ++ evs
                total_tokens := st.total_tokens + t } := by
        simp only [List.cons_append, execLoop, hc2, Bool.false_eq_true, if_false, hn,
          if_neg hifneg, hra]
        rfl
      obtain ⟨st2, hl, hexec, huntouch, hproc⟩ := ih (rest) (i + 1)
        { st with
            agents := setAgent st.agents nid rec
            agent_outputs := fun x => if x = nid then some out else st.agent_outputs x
            events := st.events ++ evs
            total_tokens := st.total_tokens + t }
        hnodup'
        (by
          intro j hj
          have := hcanc (j + 1) (by simpa using Nat.succ_lt_succ hj)
          rw [show i + 1 + j = i + (j + 1) from by omega]
          exact this)
        (fun x hx => hgood x (List.mem_cons_of_mem _ hx))
        (by
          intro x hx
          show ((setAgent st.agents nid rec).lookup x).isSome = true
          rw [lookup_setAgent_isSome]
          exact hsome x (List.mem_cons_of_mem _ hx))
      refine ⟨st2, ?_, by rw [hexec], ?_, ?_⟩
      · rw [hred, hl]
        rw [show i + 1 + pre'.length = i + (nid :: pre').length from by simp; omega]
      · intro x hx
        have hx1 : x ≠ nid := fun he => hx (he ▸ List.mem_cons_self nid pre')
        have hx2 : x ∉ pre' := fun he => hx (List.mem_cons_of_mem _ he)
        rw [huntouch x hx2]
        exact lookup_setAgent_ne st.agents nid rec x hx1
      · intro x hx node2 hn2
        rcases List.mem_cons.mp hx with rfl | hx2
        · have hnode2 : node2 = node := by
            rw [hn] at hn2
            cases hn2
            rfl
          subst hnode2
          rw [huntouch x hnidpre,
            lookup_setAgent_self st.agents x rec (hsome x (List.mem_cons_self x pre'))]
          exact ⟨rec, rfl, by rw [if_pos htype]; exact hrst⟩
        · exact hproc x hx2 node2 hn2
    · -- the skipped branch
      have hift : node.type ≠ "agent" := htype
      have hred : execLoop nodes edges trigger_input api_keys net cancelled
          ((nid :: pre') ++ rest) i st
          = execLoop nodes edges trigger_input api_keys net cancelled (pre' ++ rest) (i + 1)
            { st with
                agents := setAgent st.agents nid
                  { ((st.agents.lookup nid).getD AgentRecord.freshIdle) with
                      status := .skipped }
                agent_outputs := fun x => if x = nid
                  then some ((trigger_input.lookup "input").getD "")
                  else st.agent_outputs x
                events := st.events ++ [.agent_status nid "skipped"] } := by
        simp only [List.cons_append, execLoop, hc2, Bool.false_eq_true, if_false, hn,
          if_pos hift]
        rfl
      obtain ⟨st2, hl, hexec, huntouch, hproc⟩ := ih (rest) (i + 1)
        { st with
            agents := setAgent st.agents nid
              { ((st.agents.lookup nid).getD AgentRecord.freshIdle) with
                  status := .skipped }
            agent_outputs := fun x => if x = nid
              then some ((trigger_input.lookup "input").getD "")
              else st.agent_outputs x
            events := st.events ++ [.agent_status nid "skipped"] }
        hnodup'
        (by
          intro j hj
          have := hcanc (j + 1) (by simpa using Nat.succ_lt_succ hj)
          rw [show i + 1 + j = i + (j + 1) from by omega]
          exact this)
        (fun x hx => hgood x (List.mem_cons_of_mem _ hx))
        (by
          intro x hx
          show ((setAgent st.agents nid _).lookup x).isSome = true
          rw [lookup_setAgent_isSome]
          exact hsome x (List.mem_cons_of_mem _ hx))
      refine ⟨st2, ?_, by rw [hexec], ?_, ?_⟩
      · rw [hred, hl]
        rw [show i + 1 + pre'.length = i + (nid :: pre').length from by simp; omega]
      · intro x hx
        have hx1 : x ≠ nid := fun he => hx (he ▸ List.mem_cons_self nid pre')
        have hx2 : x ∉ pre' := fun he => hx (List.mem_cons_of_mem _ he)
        rw [huntouch x hx2]
        exact lookup_setAgent_ne st.agents nid _ x hx1
      · intro x hx node2 hn2
        rcases List.mem_cons.mp hx with rfl | hx2
        · have hnode2 : node2 = node := by
            rw [hn] at hn2
            cases hn2
            rfl
          subst hnode2
          rw [huntouch x hnidpre,
            lookup_setAgent_self st.agents x _ (hsome x (List.mem_cons_self x pre'))]
          exact ⟨_, rfl, by rw [if_neg htype]⟩
        · exact hproc x hx2 node2 hn2

theorem topological_sort_ok_elim {nodes : List NodeJ} {edges : List EdgeJ}
    {order : List String} (h : topological_sort nodes edges = .ok order) :
    order = kahnResult nodes edges := by
  unfold topological_sort at h
  by_cases hlen : (kahnResult nodes edges).length = (nodeIdsOf nodes).length
  · rw [if_pos hlen] at h
    cases h
    rfl
  · rw [if_neg hlen] at h
    cases h

/-- **C4.** Cooperative cancellation between agent executions: when the
registry check is false before each of the first `k` nodes, true at the
`k`-th, and the first `k` nodes execute without failure, the orchestrator
sets the run `cancelled`, publishes the terminal
`workflow_completed{cancelled}` as the last event, executes no further node
— every node from index `k` on keeps its freshly-created `idle` record —
keeps every previously-executed agent-type node's record `completed`
(non-agent nodes `skipped`), and always discards the run id from the
cancellation registry. -/
theorem c4_cooperative_cancellation (nodes : List NodeJ) (edges : List EdgeJ)
    (trigger_input api_keys : List (String × String))
    (net : String → List LLMMessage → LLMConfig → StreamOutcome) (cancelled : Nat → Bool)
    (order : List String) (k : Nat)
    (horder : topological_sort nodes edges = .ok order)
    (hk : k < order.length)
    (hbefore : ∀ j, j < k → cancelled j = false)
    (hat : cancelled k = true)
    (hgood : ∀ nid ∈ order.take k, NodeOk nodes api_keys net nid) :
    (run_workflow nodes edges trigger_input api_keys net cancelled).exec.status
        = .cancelled ∧
    (run_workflow nodes edges trigger_input api_keys net cancelled).exec.completed_at
        = false ∧
    (run_workflow nodes edges trigger_input api_keys net cancelled).events.getLast?
        = some (.workflow_completed "cancelled" none) ∧
    (run_workflow nodes edges trigger_input api_keys net cancelled).registry_cleared
        = true ∧
    (∀ nid ∈ order.drop k,
      (run_workflow nodes edges trigger_input api_keys net cancelled).agents.lookup nid
        = some AgentRecord.freshIdle) ∧
    (∀ nid ∈ order.take k, ∀ node, nodeMapLookup nodes nid = some node →
      ∃ rec, (run_workflow nodes edges trigger_input api_keys net cancelled).agents.lookup
          nid = some rec ∧
        rec.status = (if node.type = "agent" then .completed else .skipped)) := by
  have horder2 : order = kahnResult nodes edges := topological_sort_ok_elim horder
  have hpost := kahnResult_post nodes edges
  rw [← horder2] at hpost
  obtain ⟨hnodup, hsub, -, -⟩ := hpost
  have hordne : order ≠ [] := by
    intro h
    rw [h] at hk
    simp at hk
  have hne : nodes.isEmpty = false := by
    cases hnn : nodes with
    | nil =>
      exfalso
      obtain ⟨x, hx⟩ := List.exists_mem_of_ne_nil order hordne
      have hxin := hsub x hx
      rw [hnn] at hxin
      simp [nodeIdsOf, dedupFirst] at hxin
    | cons a l => rfl
  unfold run_workflow
  rw [runBody_loop nodes edges trigger_input api_keys net cancelled order hne horder]
  have htake_nodup : (order.take k).Nodup := (List.take_sublist k order).nodup hnodup
  have hlen_take : (order.take k).length = k := by
    rw [List.length_take]
    omega
  obtain ⟨st2, hl, hexec, huntouch, hproc⟩ :=
    execLoop_good_prefix nodes edges trigger_input api_keys net cancelled
      (order.take k) (order.drop k) 0
      ⟨⟨.running, true, false, none⟩,
        order.map (fun nid => (nid, AgentRecord.freshIdle)),
        fun _ => none, [.workflow_status "running"], 0⟩
      htake_nodup
      (by
        intro j hj
        rw [hlen_take] at hj
        rw [Nat.zero_add]
        exact hbefore j hj)
      hgood
      (by
        intro nid hnid
        show ((order.map (fun n => (n, AgentRecord.freshIdle))).lookup nid).isSome = true
        rw [lookup_freshIdle_map, if_pos (List.take_subset k order hnid)]
        rfl)
  rw [List.take_append_drop] at hl
  rw [hl, hlen_take, Nat.zero_add]
  obtain ⟨dk, drest, hdk⟩ := List.exists_cons_of_ne_nil (show order.drop k ≠ [] from by
    intro h
    have hh := congrArg List.length h
    simp [List.length_drop] at hh
    omega)
  have hdisj : ∀ a, a ∈ order.take k → a ∈ order.drop k → False := by
    have hnd : ((order.take k) ++ (order.drop k)).Nodup := by
      rw [List.take_append_drop]
      exact hnodup
    exact fun a ha hb => (List.nodup_append.mp hnd).2.2 ha hb
  rw [hdk]
  have hstep : execLoop nodes edges trigger_input api_keys net cancelled (dk :: drest) k st2
      = ({ st2 with
            exec := { st2.exec with status := .cancelled }
            events := st2.events ++ [.workflow_completed "cancelled" none] }, none) := by
    simp only [execLoop, hat, if_true]
  rw [hstep]
  have hfin : finalizeRun ({ st2 with
        exec := { st2.exec with status := .cancelled }
        events := st2.events ++ [.workflow_completed "cancelled" none] }, none)
      = ⟨{ st2.exec with status := .cancelled }, st2.agents,
          st2.events ++ [.workflow_completed "cancelled" none], true⟩ := by
    simp only [finalizeRun]
    rw [if_neg (by simp)]
  rw [hfin]
  refine ⟨rfl, ?_, ?_, rfl, ?_, ?_⟩
  · show st2.exec.completed_at = false
    rw [hexec]
  · show (st2.events ++ [Event.workflow_completed "cancelled" none]).getLast?
      = some (.workflow_completed "cancelled" none)
    rw [List.getLast?_concat]
  · intro nid hnid
    have hnid2 : nid ∈ order.drop k := by
      rw [hdk]
      exact hnid
    have hnotin : nid ∉ order.take k := fun hin => hdisj nid hin hnid2
    show st2.agents.lookup nid = some AgentRecord.freshIdle
    rw [huntouch nid hnotin]
    show (order.map (fun n => (n, AgentRecord.freshIdle))).lookup nid
      = some AgentRecord.freshIdle
    rw [lookup_freshIdle_map, if_pos (List.drop_subset k order hnid2)]
  · intro nid hnid node hn
    obtain ⟨rec, hrec, hst⟩ := hproc nid hnid node hn
    exact ⟨rec, hrec, hst⟩

/-- **C4 witness**: a two-agent chain `a → b` cancelled after `a`
completes — `a` persists `completed`, `b` stays `idle`, the run ends
`cancelled` with the terminal event last. -/
theorem c4_witness :
    (run_workflow [⟨"a", "agent", NodeData.empty⟩, ⟨"b", "agent", NodeData.empty⟩]
        [⟨"a", "b"⟩] [] [("openai", "k")] (fun _ _ _ => ⟨[], none⟩)
        (fun i => decide (1 ≤ i))).exec.status = .cancelled ∧
    (run_workflow [⟨"a", "agent", NodeData.empty⟩, ⟨"b", "agent", NodeData.empty⟩]
        [⟨"a", "b"⟩] [] [("openai", "k")] (fun _ _ _ => ⟨[], none⟩)
        (fun i => decide (1 ≤ i))).exec.completed_at = false ∧
    (run_workflow [⟨"a", "agent", NodeData.empty⟩, ⟨"b", "agent", NodeData.empty⟩]
        [⟨"a", "b"⟩] [] [("openai", "k")] (fun _ _ _ => ⟨[], none⟩)
        (fun i => decide (1 ≤ i))).events.getLast?
      = some (.workflow_completed "cancelled" none) ∧
    (run_workflow [⟨"a", "agent", NodeData.empty⟩, ⟨"b", "agent", NodeData.empty⟩]
        [⟨"a", "b"⟩] [] [("openai", "k")] (fun _ _ _ => ⟨[], none⟩)
        (fun i => decide (1 ≤ i))).agents.lookup "b" = some AgentRecord.freshIdle ∧
    (∃ rec, (run_workflow [⟨"a", "agent", NodeData.empty⟩, ⟨"b", "agent", NodeData.empty⟩]
        [⟨"a", "b"⟩] [] [("openai", "k")] (fun _ _ _ => ⟨[], none⟩)
        (fun i => decide (1 ≤ i))).agents.lookup "a" = some rec ∧
      rec.status = .completed) := by
  have h := c4_cooperative_cancellation
    [⟨"a", "agent", NodeData.empty⟩, ⟨"b", "agent", NodeData.empty⟩]
    [⟨"a", "b"⟩] [] [("openai", "k")] (fun _ _ _ => ⟨[], none⟩)
    (fun i => decide (1 ≤ i)) ["a", "b"] 1
    rfl
    (by decide)
    (by
      intro j hj
      have hj0 : j = 0 := by omega
      subst hj0
      rfl)
    rfl
    (by
      intro nid hnid
      have hnid2 : nid = "a" := by simpa using hnid
      subst hnid2
      refine ⟨⟨"a", "agent", NodeData.empty⟩, by decide, Or.inr ⟨⟨by decide, by decide⟩, ?_⟩⟩
      intro msgs config
      rfl)
  obtain ⟨h1, h2, h3, -, h5, h6⟩ := h
  refine ⟨h1, h2, h3, h5 "b" (by decide), ?_⟩
  obtain ⟨rec, hrec, hst⟩ := h6 "a" (by decide) ⟨"a", "agent", NodeData.empty⟩ (by decide)
  exact ⟨rec, hrec, by simpa using hst⟩

/-! ## Provider streaming adapters (`providers/*.py`)

Each adapter's `stream` is embedded over the list of lines the HTTP response
delivers (an abrupt end of the stream is simply the end of that list) and a
`parse` parameter standing for `json.loads` (`none` = `JSONDecodeError`).
Network suspension, the 120 s timeout and the `httpx` exceptions preceding
the line loop are outside the model; the HTTP status checks are included.
The Python dynamic-type errors (`TypeError`/`AttributeError`) that the
`except (json.JSONDecodeError, KeyError, IndexError)` tuples do not catch
are modelled and escape as the outer `ProviderError("Unexpected error: …")`
without the trailing final chunk — the claim is about streams that finish
without raising. -/

/-- JSON values as produced by `json.loads`; numbers are modelled as
integers (the token counters the adapters extract are ints). -/
inductive JVal where
  | null
  | bool (b : Bool)
  | str (s : String)
  | num (n : Int)
  | arr (elems : List JVal)
  | obj (fields : List (String × JVal))

/-- The Python exception classes the loop bodies can raise. -/
inductive PyErr where
  | jsonDecodeError
  | keyError
  | indexError
  | typeError
  | attributeError
deriving DecidableEq, Repr

def PyErr.name : PyErr → String
  | .jsonDecodeError => "JSONDecodeError"
  | .keyError => "KeyError"
  | .indexError => "IndexError"
  | .typeError => "TypeError"
  | .attributeError => "AttributeError"

/-- `except (json.JSONDecodeError, KeyError, IndexError)` — the tuple in
the openai, groq, openrouter and gemini loops. -/
def PyErr.caughtByLoop : PyErr → Bool
  | .jsonDecodeError => true
  | .keyError => true
  | .indexError => true
  | _ => false

/-- `except (json.JSONDecodeError, KeyError)` — the tuple in the anthropic
loop. -/
def PyErr.caughtByAnthropic : PyErr → Bool
  | .jsonDecodeError => true
  | .keyError => true
  | _ => false

/-- Python `d[k]`: `KeyError` when the key is missing, `TypeError` when the
receiver is not a dict. -/
def JVal.getItem : JVal → String → Except PyErr JVal
  | .obj fields, k =>
    match fields.lookup k with
    | some v => .ok v
    | none => .error .keyError
  | _, _ => .error .typeError

/-- Python `xs[i]`: `IndexError` when out of range, `TypeError` when the
receiver is not a list. -/
def JVal.index : JVal → Nat → Except PyErr JVal
  | .arr elems, i =>
    match elems[i]? with
    | some v => .ok v
    | none => .error .indexError
  | _, _ => .error .typeError

/-- Python `d.get(k, default)`: `AttributeError` when the receiver is not a
dict. -/
def JVal.getD : JVal → String → JVal → Except PyErr JVal
  | .obj fields, k, dflt => .ok ((fields.lookup k).getD dflt)
  | _, _, _ => .error .attributeError

/-- Python `d.get(k)` (default `None`). -/
def JVal.getOpt (v : JVal) (k : String) : Except PyErr JVal :=
  v.getD k .null

/-- Python truthiness of a JSON value. -/
def JVal.truthy : JVal → Bool
  | .null => false
  | .bool b => b
  | .str s => !s.isEmpty
  | .num n => n != 0
  | .arr es => !es.isEmpty
  | .obj fs => !fs.isEmpty

/-- `full_content += content` / `yield LLMChunk(content=content)` need a
string; anything else is a `TypeError`. -/
def JVal.asStr : JVal → Except PyErr String
  | .str s => .ok s
  | _ => .error .typeError

/-- Python `x + y` as used on the anthropic token counter (`int`, with
`bool` coercing; `str + str` concatenates; the rest is a `TypeError`). -/
def JVal.pyAdd : JVal → JVal → Except PyErr JVal
  | .num a, .num b => .ok (.num (a + b))
  | .num a, .bool b => .ok (.num (a + (if b then 1 else 0)))
  | .bool a, .num b => .ok (.num ((if a then 1 else 0) + b))
  | .bool a, .bool b => .ok (.num ((if a then 1 else 0) + (if b then 1 else 0)))
  | .str a, .str b => .ok (.str (a ++ b))
  | _, _ => .error .typeError

/-- Python `x == "…"` between a JSON value and a string literal: equality
holds only for equal strings, no error otherwise. -/
def JVal.eqStr : JVal → String → Bool
  | .str s, t => s == t
  | _, _ => false

/-- Python `for x in xs`: lists iterate elements, strings iterate one-char
strings, dicts iterate keys; the rest is a `TypeError`. -/
def JVal.iter : JVal → Except PyErr (List JVal)
  | .arr es => .ok es
  | .str s => .ok (s.toList.map (fun c => .str (String.singleton c)))
  | .obj fs => .ok (fs.map (fun p => .str p.1))
  | _ => .error .typeError

/-- A chunk as an adapter yields it; the final chunk keeps the raw JSON
token value the adapter last extracted. -/
structure AChunk where
  content : String
  is_final : Bool
  tokens_used : JVal

/-- What one parsed SSE payload does: the chunks it yields (in order), the
token counter afterwards, and the exception it raises after those yields,
if any. -/
structure LineOut where
  emitted : List AChunk
  tokens : JVal
  err : Option PyErr

/-- `usage = chunk.get("usage"); if usage: tokens_used =
usage.get("total_tokens", 0)` — openai.py lines 112–114 (openrouter.py is
line-for-line identical). -/
def openaiUsagePart (chunk : JVal) (tokens : JVal) (emitted : List AChunk) : LineOut :=
  match chunk.getOpt "usage" with
  | .error e => ⟨emitted, tokens, some e⟩
  | .ok usage =>
    if usage.truthy then
      match usage.getD "total_tokens" (.num 0) with
      | .error e => ⟨emitted, tokens, some e⟩
      | .ok t => ⟨emitted, t, none⟩
    else ⟨emitted, tokens, none⟩

/-- The openai.py loop body (lines 104–114): extract
`chunk["choices"][0].get("delta", {}).get("content", "")`, yield it when
truthy, then record usage. -/
def openaiLineBody (chunk : JVal) (tokens : JVal) : LineOut :=
  match chunk.getItem "choices" with
  | .error e => ⟨[], tokens, some e⟩
  | .ok choices =>
    match choices.index 0 with
    | .error e => ⟨[], tokens, some e⟩
    | .ok c0 =>
      match c0.getD "delta" (.obj []) with
      | .error e => ⟨[], tokens, some e⟩
      | .ok delta =>
        match delta.getD "content" (.str "") with
        | .error e => ⟨[], tokens, some e⟩
        | .ok content =>
          if content.truthy then
            match content.asStr with
            | .error e => ⟨[], tokens, some e⟩
            | .ok s => openaiUsagePart chunk tokens [⟨s, false, .num 0⟩]
          else openaiUsagePart chunk tokens []

/-- `usage = chunk.get("x_groq", {}).get("usage", chunk.get("usage"))` —
groq.py lines 100–102. -/
def groqUsagePart (chunk : JVal) (tokens : JVal) (emitted : List AChunk) : LineOut :=
  match chunk.getD "x_groq" (.obj []) with
  | .error e => ⟨emitted, tokens, some e⟩
  | .ok xg =>
    match chunk.getOpt "usage" with
    | .error e => ⟨emitted, tokens, some e⟩
    | .ok fallback =>
      match xg.getD "usage" fallback with
      | .error e => ⟨emitted, tokens, some e⟩
      | .ok usage =>
        if usage.truthy then
          match usage.getD "total_tokens" (.num 0) with
          | .error e => ⟨emitted, tokens, some e⟩
          | .ok t => ⟨emitted, t, none⟩
        else ⟨emitted, tokens, none⟩

/-- The groq.py loop body (lines 92–102): delta extraction as openai, then
the `x_groq` usage lookup. -/
def groqLineBody (chunk : JVal) (tokens : JVal) : LineOut :=
  match chunk.getItem "choices" with
  | .error e => ⟨[], tokens, some e⟩
  | .ok choices =>
    match choices.index 0 with
    | .error e => ⟨[], tokens, some e⟩
    | .ok c0 =>
      match c0.getD "delta" (.obj []) with
      | .error e => ⟨[], tokens, some e⟩
      | .ok delta =>
        match delta.getD "content" (.str "") with
        | .error e => ⟨[], tokens, some e⟩
        | .ok content =>
          if content.truthy then
            match content.asStr with
            | .error e => ⟨[], tokens, some e⟩
            | .ok s => groqUsagePart chunk tokens [⟨s, false, .num 0⟩]
          else groqUsagePart chunk tokens []

/-- The anthropic.py loop body (lines 122–141): dispatch on the typed event,
yield `content_block_delta` texts, accumulate `message_start` input tokens
and `message_delta` output tokens with `+=`. -/
def anthropicLineBody (event : JVal) (tokens : JVal) : LineOut :=
  match event.getD "type" (.str "") with
  | .error e => ⟨[], tokens, some e⟩
  | .ok eventType =>
    if eventType.eqStr "content_block_delta" then
      match event.getD "delta" (.obj []) with
      | .error e => ⟨[], tokens, some e⟩
      | .ok delta =>
        match delta.getD "text" (.str "") with
        | .error e => ⟨[], tokens, some e⟩
        | .ok text =>
          if text.truthy then
            match text.asStr with
            | .error e => ⟨[], tokens, some e⟩
            | .ok s => ⟨[⟨s, false, .num 0⟩], tokens, none⟩
          else ⟨[], tokens, none⟩
    else if eventType.eqStr "message_start" then
      match event.getD "message" (.obj []) with
      | .error e => ⟨[], tokens, some e⟩
      | .ok msg =>
        match msg.getD "usage" (.obj []) with
        | .error e => ⟨[], tokens, some e⟩
        | .ok usage =>
          match usage.getD "input_tokens" (.num 0) with
          | .error e => ⟨[], tokens, some e⟩
          | .ok it =>
            match tokens.pyAdd it with
            | .error e => ⟨[], tokens, some e⟩
            | .ok t2 => ⟨[], t2, none⟩
    else if eventType.eqStr "message_delta" then
      match event.getD "usage" (.obj []) with
      | .error e => ⟨[], tokens, some e⟩
      | .ok usage =>
        match usage.getD "output_tokens" (.num 0) with
        | .error e => ⟨[], tokens, some e⟩
        | .ok ot =>
          match tokens.pyAdd ot with
          | .error e => ⟨[], tokens, some e⟩
          | .ok t2 => ⟨[], t2, none⟩
    else ⟨[], tokens, none⟩

/-- `for part in parts:` — gemini.py lines 126–130: yield each truthy
`part.get("text", "")`. -/
def geminiPartsLoop (tokens : JVal) : List JVal → List AChunk → LineOut
  | [], acc => ⟨acc, tokens, none⟩
  | part :: rest, acc =>
    match part.getD "text" (.str "") with
    | .error e => ⟨acc, tokens, some e⟩
    | .ok text =>
      if text.truthy then
        match text.asStr with
        | .error e => ⟨acc, tokens, some e⟩
        | .ok s => geminiPartsLoop tokens rest (acc ++ [⟨s, false, .num 0⟩])
      else geminiPartsLoop tokens rest acc

/-- `usage = chunk.get("usageMetadata", {}); total = …; if total:` —
gemini.py lines 133–136 (last-write-wins). -/
def geminiUsagePart (chunk : JVal) (tokens : JVal) (emitted : List AChunk) : LineOut :=
  match chunk.getD "usageMetadata" (.obj []) with
  | .error e => ⟨emitted, tokens, some e⟩
  | .ok usage =>
    match usage.getD "totalTokenCount" (.num 0) with
    | .error e => ⟨emitted, tokens, some e⟩
    | .ok total =>
      if total.truthy then ⟨emitted, total, none⟩
      else ⟨emitted, tokens, none⟩

/-- The gemini.py loop body (lines 122–136): walk
`candidates[0].content.parts`, then record `usageMetadata`. -/
def geminiLineBody (chunk : JVal) (tokens : JVal) : LineOut :=
  match chunk.getD "candidates" (.arr []) with
  | .error e => ⟨[], tokens, some e⟩
  | .ok candidates =>
    if candidates.truthy then
      match candidates.index 0 with
      | .error e => ⟨[], tokens, some e⟩
      | .ok c0 =>
        match c0.getD "content" (.obj []) with
        | .error e => ⟨[], tokens, some e⟩
        | .ok content =>
          match content.getD "parts" (.arr []) with
          | .error e => ⟨[], tokens, some e⟩
          | .ok parts =>
            match parts.iter with
            | .error e => ⟨[], tokens, some e⟩
            | .ok elems =>
              match geminiPartsLoop tokens elems [] with
              | ⟨em, tok, some e⟩ => ⟨em, tok, some e⟩
              | ⟨em, tok, none⟩ => geminiUsagePart chunk tok em
    else geminiUsagePart chunk tokens []

/-- What happens to one line of the SSE response: skip non-`data:` lines,
honour the `[DONE]` sentinel where the adapter uses one, `json.loads` the
payload (parse failure → caught → `continue`), then run the body and apply
the adapter's `except` tuple. -/
inductive LineCtl where
  | next
  | stop
  | fail (e : PyErr)

/-- The `except` tuple around the loop body: a caught exception turns into
`continue`, an uncaught one escapes the `async for`; in both cases the
chunks already yielded by the body stand. -/
def sseLineAfterParse (caught : PyErr → Bool) (r : LineOut) :
    List AChunk × JVal × LineCtl :=
  match r.err with
  | none => (r.emitted, r.tokens, .next)
  | some e =>
    if caught e then (r.emitted, r.tokens, .next) else (r.emitted, r.tokens, .fail e)

def sseLine (parse : String → Option JVal) (caught : PyErr → Bool) (hasDone : Bool)
    (body : JVal → JVal → LineOut) (tokens : JVal) (line : String) :
    List AChunk × JVal × LineCtl :=
  if ¬ line.take 6 = "data: " then ([], tokens, .next)
  else if hasDone ∧ line.drop 6 = "[DONE]" then ([], tokens, .stop)
  else
    match parse (line.drop 6) with
    | none => ([], tokens, .next)
    | some chunk => sseLineAfterParse caught (body chunk tokens)

/-- `async for line in response.aiter_lines():` — chunks yielded so far are
kept across `continue`s; `break` and an uncaught exception both leave the
loop, the latter carrying the exception out. -/
def sseLoop (lineF : JVal → String → List AChunk × JVal × LineCtl) :
    List String → JVal → List AChunk → List AChunk × JVal × Option PyErr
  | [], tokens, acc => (acc, tokens, none)
  | l :: ls, tokens, acc =>
    match lineF tokens l with
    | (em, tok2, .next) => sseLoop lineF ls tok2 (acc ++ em)
    | (em, tok2, .stop) => (acc ++ em, tok2, none)
    | (em, tok2, .fail e) => (acc ++ em, tok2, some e)

/-- The chunk sequence a `stream` call produces, or the exception it raises
(in which case the chunks already yielded are listed but no final chunk
follows). -/
structure AStreamResult where
  chunks : List AChunk
  err : Option Exc

/-- The shared shape of all five `stream` implementations: HTTP status
classification, the line loop starting from `tokens_used = 0`, and the
unconditional trailing final chunk after the loop. -/
def runSSE (provider : String) (isAuth : Nat → Bool) (parse : String → Option JVal)
    (caught : PyErr → Bool) (hasDone : Bool) (body : JVal → JVal → LineOut)
    (status : Nat) (bodyText : String) (lines : List String) : AStreamResult :=
  if isAuth status then ⟨[], some (.providerAuth provider)⟩
  else if status = 429 then ⟨[], some (.providerRateLimit provider)⟩
  else if status ≠ 200 then
    ⟨[], some (.providerError provider ("HTTP " ++ toString status ++ ": " ++ bodyText))⟩
  else
    match sseLoop (sseLine parse caught hasDone body) lines (.num 0) [] with
    | (chunks, tokens, none) => ⟨chunks ++ [⟨"", true, tokens⟩], none⟩
    | (chunks, _, some e) =>
      ⟨chunks, some (.providerError provider ("Unexpected error: " ++ e.name))⟩

/-- `OpenAIProvider.stream` (openai.py lines 65–126). -/
def openaiStream (parse : String → Option JVal) (status : Nat) (bodyText : String)
    (lines : List String) : AStreamResult :=
  runSSE "openai" (fun s => decide (s = 401)) parse PyErr.caughtByLoop true
    openaiLineBody status bodyText lines

/-- `AnthropicProvider.stream` (anthropic.py lines 81–152): no `[DONE]`
sentinel, and the `except` tuple omits `IndexError`. -/
def anthropicStream (parse : String → Option JVal) (status : Nat) (bodyText : String)
    (lines : List String) : AStreamResult :=
  runSSE "anthropic" (fun s => decide (s = 401)) parse PyErr.caughtByAnthropic false
    anthropicLineBody status bodyText lines

/-- `GeminiProvider.stream` (gemini.py lines 82–154): 401 *or* 403 is an
auth failure; no `[DONE]` sentinel. -/
def geminiStream (parse : String → Option JVal) (status : Nat) (bodyText : String)
    (lines : List String) : AStreamResult :=
  runSSE "gemini" (fun s => decide (s = 401 ∨ s = 403)) parse PyErr.caughtByLoop false
    geminiLineBody status bodyText lines

/-- `GroqProvider.stream` (groq.py lines 57–121). -/
def groqStream (parse : String → Option JVal) (status : Nat) (bodyText : String)
    (lines : List String) : AStreamResult :=
  runSSE "groq" (fun s => decide (s = 401)) parse PyErr.caughtByLoop true
    groqLineBody status bodyText lines

/-- `OpenRouterProvider.stream` (openrouter.py lines 62–123): the loop body
is line-for-line the openai extraction. -/
def openrouterStream (parse : String → Option JVal) (status : Nat) (bodyText : String)
    (lines : List String) : AStreamResult :=
  runSSE "openrouter" (fun s => decide (s = 401)) parse PyErr.caughtByLoop true
    openaiLineBody status bodyText lines

theorem openaiUsagePart_emitted (chunk tokens : JVal) (emitted : List AChunk) :
    (openaiUsagePart chunk tokens emitted).emitted = emitted := by
  unfold openaiUsagePart
  repeat' split
  all_goals rfl

theorem groqUsagePart_emitted (chunk tokens : JVal) (emitted : List AChunk) :
    (groqUsagePart chunk tokens emitted).emitted = emitted := by
  unfold groqUsagePart
  repeat' split
  all_goals rfl

theorem geminiUsagePart_emitted (chunk tokens : JVal) (emitted : List AChunk) :
    (geminiUsagePart chunk tokens emitted).emitted = emitted := by
  unfold geminiUsagePart
  repeat' split
  all_goals rfl

/-- The openai loop body only yields chunks built as
`LLMChunk(content=content)`, which default to non-final. -/
theorem openaiLineBody_nonfinal (chunk tokens : JVal) :
    ∀ c ∈ (openaiLineBody chunk tokens).emitted, c.is_final = false := by
  unfold openaiLineBody
  repeat' split
  all_goals simp [openaiUsagePart_emitted]

theorem groqLineBody_nonfinal (chunk tokens : JVal) :
    ∀ c ∈ (groqLineBody chunk tokens).emitted, c.is_final = false := by
  unfold groqLineBody
  repeat' split
  all_goals simp [groqUsagePart_emitted]

theorem anthropicLineBody_nonfinal (event tokens : JVal) :
    ∀ c ∈ (anthropicLineBody event tokens).emitted, c.is_final = false := by
  unfold anthropicLineBody
  repeat' split
  all_goals simp

theorem geminiPartsLoop_nonfinal (tokens : JVal) (parts : List JVal) (acc : List AChunk)
    (hacc : ∀ c ∈ acc, c.is_final = false) :
    ∀ c ∈ (geminiPartsLoop tokens parts acc).emitted, c.is_final = false := by
  induction parts generalizing acc with
  | nil => simpa [geminiPartsLoop] using hacc
  | cons p rest ih =>
    unfold geminiPartsLoop
    split
    · simpa using hacc
    · split
      · split
        · simpa using hacc
        · apply ih
          intro c hc
          rcases List.mem_append.mp hc with h | h
          · exact hacc c h
          · simp at h
            subst h
            rfl
      · exact ih acc hacc

theorem geminiLineBody_nonfinal (chunk tokens : JVal) :
    ∀ c ∈ (geminiLineBody chunk tokens).emitted, c.is_final = false := by
  unfold geminiLineBody
  split
  · simp
  · split
    · split
      · simp
      · split
        · simp
        · split
          · simp
          · split
            · simp
            · split
              next em tok e heq =>
                intro c hc
                rw [← heq] at hc
                exact geminiPartsLoop_nonfinal tokens _ [] (by simp) c hc
              next em tok heq =>
                simp only [geminiUsagePart_emitted]
                intro c hc
                have hc2 : c ∈ (LineOut.mk em tok none).emitted := hc
                rw [← heq] at hc2
                exact geminiPartsLoop_nonfinal tokens _ [] (by simp) c hc2
    · simp [geminiUsagePart_emitted]

theorem sseLineAfterParse_sub (caught : PyErr → Bool) (r : LineOut) :
    ∀ c ∈ (sseLineAfterParse caught r).1, c ∈ r.emitted := by
  unfold sseLineAfterParse
  repeat' split
  all_goals exact fun c hc => hc

/-- Chunks yielded while processing one SSE line all come from the loop
body, hence are non-final. -/
theorem sseLine_nonfinal (parse : String → Option JVal) (caught : PyErr → Bool)
    (hasDone : Bool) (body : JVal → JVal → LineOut)
    (hbody : ∀ chunk tokens, ∀ c ∈ (body chunk tokens).emitted, c.is_final = false)
    (tokens : JVal) (line : String) :
    ∀ c ∈ (sseLine parse caught hasDone body tokens line).1, c.is_final = false := by
  unfold sseLine
  split
  · simp
  · split
    · simp
    · split
      · simp
      next chunk hparse =>
        intro c hc
        exact hbody chunk tokens c (sseLineAfterParse_sub caught (body chunk tokens) c hc)

/-- Any chunk accumulated by the line loop is non-final, provided every
line contributes only non-final chunks. -/
theorem sseLoop_nonfinal (lineF : JVal → String → List AChunk × JVal × LineCtl)
    (hline : ∀ tokens line, ∀ c ∈ (lineF tokens line).1, c.is_final = false)
    (lines : List String) (tokens : JVal) (acc : List AChunk)
    (hacc : ∀ c ∈ acc, c.is_final = false) :
    ∀ c ∈ (sseLoop lineF lines tokens acc).1, c.is_final = false := by
  induction lines generalizing tokens acc with
  | nil => simpa [sseLoop] using hacc
  | cons l ls ih =>
    rcases hL : lineF tokens l with ⟨em, tok2, ctl⟩
    have hem : ∀ c ∈ em, c.is_final = false := by
      have h0 := hline tokens l
      rw [hL] at h0
      exact h0
    have happ : ∀ c ∈ acc ++ em, c.is_final = false := by
      intro c hc
      rcases List.mem_append.mp hc with h | h
      · exact hacc c h
      · exact hem c h
    cases ctl with
    | next =>
      simp only [sseLoop, hL]
      exact ih tok2 (acc ++ em) happ
    | stop =>
      simp only [sseLoop, hL]
      exact happ
    | fail e =>
      simp only [sseLoop, hL]
      exact happ

/-- Shared shape theorem: whenever a `stream` run raises nothing, its
output is zero or more non-final chunks followed by exactly one final
chunk carrying the token state the loop ended with. -/
theorem runSSE_shape (provider : String) (isAuth : Nat → Bool)
    (parse : String → Option JVal) (caught : PyErr → Bool) (hasDone : Bool)
    (body : JVal → JVal → LineOut) (status : Nat) (bodyText : String)
    (lines : List String)
    (hbody : ∀ chunk tokens, ∀ c ∈ (body chunk tokens).emitted, c.is_final = false)
    (hok : (runSSE provider isAuth parse caught hasDone body status bodyText lines).err
        = none) :
    ∃ (cs : List AChunk) (T : JVal),
      (runSSE provider isAuth parse caught hasDone body status bodyText lines).chunks
        = cs ++ [⟨"", true, T⟩] ∧ ∀ c ∈ cs, c.is_final = false := by
  unfold runSSE at hok ⊢
  split at hok
  next h1 => simp at hok
  next h1 =>
    split at hok
    next h2 => simp at hok
    next h2 =>
      split at hok
      next h3 => simp at hok
      next h3 =>
        rw [if_neg h1, if_neg h2, if_neg h3]
        split at hok
        next cs T heq =>
          simp only [heq]
          refine ⟨cs, T, rfl, ?_⟩
          intro c hc
          have h0 := sseLoop_nonfinal (sseLine parse caught hasDone body)
            (sseLine_nonfinal parse caught hasDone body hbody) lines (.num 0) [] (by simp)
          rw [heq] at h0
          exact h0 c hc
        next cs T e heq => simp at hok

/-- C7: for every adapter (openai, anthropic, gemini, groq, openrouter)
and every input — HTTP status, response body, json.loads behaviour, and
any line sequence, including one cut off abruptly after partial data —
whenever `stream` finishes without raising, the produced sequence is zero
or more non-final chunks followed by exactly one final chunk
`(content = "", is_final = true, tokens_used = T)`, T being the token
state last extracted before the stream ended. -/
theorem c7_stream_final_chunk :
    (∀ (parse : String → Option JVal) (status : Nat) (bodyText : String)
       (lines : List String),
       (openaiStream parse status bodyText lines).err = none →
       ∃ (cs : List AChunk) (T : JVal),
         (openaiStream parse status bodyText lines).chunks = cs ++ [⟨"", true, T⟩] ∧
         ∀ c ∈ cs, c.is_final = false) ∧
    (∀ (parse : String → Option JVal) (status : Nat) (bodyText : String)
       (lines : List String),
       (anthropicStream parse status bodyText lines).err = none →
       ∃ (cs : List AChunk) (T : JVal),
         (anthropicStream parse status bodyText lines).chunks = cs ++ [⟨"", true, T⟩] ∧
         ∀ c ∈ cs, c.is_final = false) ∧
    (∀ (parse : String → Option JVal) (status : Nat) (bodyText : String)
       (lines : List String),
       (geminiStream parse status bodyText lines).err = none →
       ∃ (cs : List AChunk) (T : JVal),
         (geminiStream parse status bodyText lines).chunks = cs ++ [⟨"", true, T⟩] ∧
         ∀ c ∈ cs, c.is_final = false) ∧
    (∀ (parse : String → Option JVal) (status : Nat) (bodyText : String)
       (lines : List String),
       (groqStream parse status bodyText lines).err = none →
       ∃ (cs : List AChunk) (T : JVal),
         (groqStream parse status bodyText lines).chunks = cs ++ [⟨"", true, T⟩] ∧
         ∀ c ∈ cs, c.is_final = false) ∧
    (∀ (parse : String → Option JVal) (status : Nat) (bodyText : String)
       (lines : List String),
       (openrouterStream parse status bodyText lines).err = none →
       ∃ (cs : List AChunk) (T : JVal),
         (openrouterStream parse status bodyText lines).chunks = cs ++ [⟨"", true, T⟩] ∧
         ∀ c ∈ cs, c.is_final = false) := by
  refine ⟨?_, ?_, ?_, ?_, ?_⟩ <;> intro parse status bodyText lines hok
  · exact runSSE_shape _ _ _ _ _ _ _ _ _ openaiLineBody_nonfinal hok
  · exact runSSE_shape _ _ _ _ _ _ _ _ _ anthropicLineBody_nonfinal hok
  · exact runSSE_shape _ _ _ _ _ _ _ _ _ geminiLineBody_nonfinal hok
  · exact runSSE_shape _ _ _ _ _ _ _ _ _ groqLineBody_nonfinal hok
  · exact runSSE_shape _ _ _ _ _ _ _ _ _ openaiLineBody_nonfinal hok

/-- Witness: a stream of one well-formed delta line followed by an abrupt
end (no `[DONE]`, no usage chunk) still finishes with the final chunk. -/
theorem c7_witness :
    (openaiStream
        (fun s => if s = "X" then
           some (.obj [("choices", .arr [.obj [("delta", .obj [("content", .str "hi")])]])])
         else none)
        200 "" ["data: X", "noise"]).err = none ∧
    ∃ (cs : List AChunk) (T : JVal),
      (openaiStream
          (fun s => if s = "X" then
             some (.obj [("choices", .arr [.obj [("delta", .obj [("content", .str "hi")])]])])
           else none)
          200 "" ["data: X", "noise"]).chunks = cs ++ [⟨"", true, T⟩] ∧
      ∀ c ∈ cs, c.is_final = false :=
  ⟨rfl,
   c7_stream_final_chunk.1
     (fun s => if s = "X" then
        some (.obj [("choices", .arr [.obj [("delta", .obj [("content", .str "hi")])]])])
      else none)
     200 "" ["data: X", "noise"] rfl⟩

end Synapse
